import Mathlib

/-!
# A verification development for the nanoSAT CDCL solver

This file gives a shallow embedding, in Lean 4, of the core of the nanoSAT
solver (`src/clauses.hpp`, `src/restart.hpp`, `src/solver.hpp`, `src/parse.hpp`,
`src/main.cpp`, and the test mock in `tests/nanosat_sat_test.cpp`), and proves
or refutes a collection of properties of that code.

Modelling conventions:
* C++ `std::uint32_t` / `int` values are modelled as `Nat` (or `Int` where the
  source uses a signed counter that is decremented).  None of the properties
  proved below depends on wrap-around of 32-bit arithmetic, so no explicit
  `% 2^32` reduction is inserted; the `INVALID` sentinels (`(uint32)-1`) are
  modelled by the concrete value `2^32 - 1`.
* C++ `double` fields (clause activities, `max_learned_clauses`, the Luby
  values) are modelled as `ℚ` (exact arithmetic).  All concrete evaluations
  below only involve values on which IEEE double arithmetic is exact.
* `std::vector` is modelled as `List`, with `List.getD`/`List.set` for indexed
  access; reads out of range return a default (the corresponding C++ reads are
  guarded by assertions in the source).
* The Mersenne twister `std::mt19937` is modelled as an arbitrary stream
  `rand : ℕ → ℕ` together with a cursor; a draw from
  `uniform_int_distribution(0, b-1)` is modelled as `rand ctr % b`, and
  `std::shuffle` as a Fisher–Yates pass driven by the same stream.  Theorems
  about concrete runs are stated for an arbitrary stream whenever the run
  never actually consumes randomness with a bound larger than 1.
* `while` loops whose termination is a semantic property of the solver state
  (propagation, conflict analysis, the search loop) are modelled with an
  explicit fuel parameter; the fuel chosen by each caller is ample for every
  state the solver actually reaches, and running out of fuel reproduces the
  value the C++ loop would produce when its controlling condition turns false.
-/

set_option linter.unusedVariables false

namespace NanoSat

/-! ## Kernel-reducible rational arithmetic

`double` values are modelled as `ℚ`.  The Mathlib arithmetic on `ℚ` is
compiled code that the kernel cannot evaluate, so the embedding uses the
following operations, which are definitionally built from `mkRat` /
`Rat.divInt` and therefore reduce inside `decide`; each is proved equal to
the corresponding Mathlib operation below. -/

/-- Addition on `ℚ` via `mkRat`. -/
def qAdd (a b : ℚ) : ℚ := mkRat (a.num * b.den + b.num * a.den) (a.den * b.den)

/-- Multiplication on `ℚ` via `mkRat`. -/
def qMul (a b : ℚ) : ℚ := mkRat (a.num * b.num) (a.den * b.den)

/-- Inverse on `ℚ` via `Rat.divInt`. -/
def qInv (a : ℚ) : ℚ := Rat.divInt a.den a.num

/-- Division on `ℚ`. -/
def qDiv (a b : ℚ) : ℚ := qMul a (qInv b)

/-- Natural powers on `ℚ`. -/
def qPowNat (y : ℚ) : Nat → ℚ
  | 0 => 1
  | n + 1 => qMul y (qPowNat y n)

/-- Integer powers on `ℚ` (the model of `std::pow` at the call sites of the
solver, whose exponents are integral). -/
def qPow (y : ℚ) (e : Int) : ℚ :=
  if e < 0 then qInv (qPowNat y e.natAbs) else qPowNat y e.natAbs

/-- `static_cast` of a nonnegative `double` to an unsigned integer
(truncation towards zero). -/
def qToUInt (a : ℚ) : Nat := a.num.toNat / a.den

/-! ## `restart.hpp`: the Luby restart sequence -/

/-- The first loop of `luby`:
`for (size = 1, seq = 0; size < x + 1; seq++, size = 2 * size + 1);`,
with an explicit fuel.  The measure `x + 1 - size` strictly decreases on
every iteration, so starting the fuel at that measure (as `lubyGrow` does)
the fuel never runs out before the loop guard fails. -/
def lubyGrowF : Nat → Nat → Nat → Int → Nat × Int
  | 0, _, size, seq => (size, seq)
  | fuel + 1, x, size, seq =>
    if size < x + 1 then lubyGrowF fuel x (2 * size + 1) (seq + 1) else (size, seq)

/-- The first loop of `luby`, entered at an arbitrary state. -/
def lubyGrow (x : Nat) (size : Nat) (seq : Int) : Nat × Int :=
  lubyGrowF (x + 1 - size) x size seq

/-- The second loop of `luby`:
`while (size - 1 != x) { size = (size - 1) >> 1; seq--; x = x % size; }`,
with an explicit fuel (the caller passes `fuel = size`, which dominates the
number of iterations actually performed, since `size` at least halves on every
step). -/
def lubyShrink : Nat → Nat → Int → Nat → Int
  | 0, _, seq, _ => seq
  | fuel + 1, size, seq, x =>
    if size - 1 = x then seq
    else lubyShrink fuel ((size - 1) / 2) (seq - 1) (x % ((size - 1) / 2))

/-- The integer exponent computed by `luby(y, x)`. -/
def lubyExp (x : Nat) : Int :=
  let p := lubyGrow x 1 0
  lubyShrink p.1 p.1 p.2 x

/-- `restart.hpp`'s `luby(y, x) = pow(y, seq)` with the exponent computed by
the two loops above.  `double` is modelled as `ℚ`. -/
def luby (y : ℚ) (x : Nat) : ℚ := qPow y (lubyExp x)

/-- Reference (specification-side) description of the Luby exponent sequence:
the finite-subsequence construction.  `lubyBlock k` is the list of exponents
of the first `2^k - 1` Luby values; each block is two copies of the previous
block followed by the next power. -/
def lubyBlock : Nat → List Nat
  | 0 => []
  | k + 1 => lubyBlock k ++ lubyBlock k ++ [k]

/-! ## `main.cpp`: command-line argument handling -/

/-- The two output channels of the process. -/
inductive OutChannel
  | stdout
  | stderr
deriving DecidableEq

/-- The usage message printed by `main` on a wrong argument count. -/
def usageMessage : String :=
  "Expects `nanosat file.cnf`, `nanosat file.cnf.gz`, or `nanosat file.cnf.xz`."

/-- The argument-count check at the top of `main`: with `argc != 2` the
program prints the usage message *to `std::cout`* and exits with
`EXIT_FAILURE` (1); otherwise it continues (`none`).  The result records
(channel, message, exit code). -/
def mainArgCheck (argc : Nat) : Option (OutChannel × String × Nat) :=
  if argc ≠ 2 then some (OutChannel.stdout, usageMessage, 1) else none

/-! ## `clauses.hpp`: values, literals, clause references, the clause arena -/

/-- Three-valued variable assignment (`VariableValue`). -/
inductive VVal
  | vfalse
  | vtrue
  | vunset
deriving DecidableEq

/-- The conversion `VariableValue(bool)`. -/
def VVal.ofBool (b : Bool) : VVal := if b then VVal.vtrue else VVal.vfalse

/-- `VariableValue::operator==` applied after the implicit `bool`
conversion, as in `variable_values[var] == polarity`:
`Unset` is equal to neither `true` nor `false`. -/
def VVal.eqBool (v : VVal) (b : Bool) : Bool := v == VVal.ofBool b

/-- `VariableValue::isTrue`. -/
def VVal.isTrue (v : VVal) : Bool := v == VVal.vtrue

/-- `VariableValue::isFalse`. -/
def VVal.isFalse (v : VVal) : Bool := v == VVal.vfalse

/-- `VariableValue::isUnset`. -/
def VVal.isUnset (v : VVal) : Bool := v == VVal.vunset

/-- Packed literal (`Literal`): representation `x = 2*var + polarity`.
The invalid literal is `(uint32)-1 = 2^32 - 1`. -/
structure Lit where
  x : Nat
deriving DecidableEq

/-- The representation of the invalid literal (`Literal::INVALID`). -/
def litInvalidRep : Nat := 2 ^ 32 - 1

/-- The invalid literal (default constructor). -/
def Lit.invalid : Lit := ⟨litInvalidRep⟩

/-- `Literal(variable, polarity)`. -/
def Lit.mk2 (variable_ : Nat) (polarity : Bool) : Lit :=
  ⟨2 * variable_ + (if polarity then 1 else 0)⟩

/-- `operator~`: flip the lowest bit. -/
def Lit.neg (l : Lit) : Lit := ⟨l.x ^^^ 1⟩

/-- `Literal::polarity()`. -/
def Lit.polarity (l : Lit) : Bool := l.x % 2 == 1

/-- `Literal::var()`. -/
def Lit.var (l : Lit) : Nat := l.x / 2

/-- `Literal::valid()`. -/
def Lit.valid (l : Lit) : Bool := l.x != litInvalidRep

/-- Packed clause reference (`ClauseRef`): `x = 2*index + is_learned`;
invalid is `(uint32)-1`. -/
structure ClauseRef where
  x : Nat
deriving DecidableEq

/-- The invalid clause reference (default constructor). -/
def ClauseRef.invalid : ClauseRef := ⟨2 ^ 32 - 1⟩

/-- `ClauseRef(index, is_learned)`. -/
def ClauseRef.mk2 (index : Nat) (is_learned : Bool) : ClauseRef :=
  ⟨2 * index + (if is_learned then 1 else 0)⟩

/-- `ClauseRef::idx()`. -/
def ClauseRef.idx (c : ClauseRef) : Nat := c.x / 2

/-- `ClauseRef::isLearned()`. -/
def ClauseRef.isLearned (c : ClauseRef) : Bool := c.x % 2 == 1

/-- `ClauseRef::valid()`. -/
def ClauseRef.valid (c : ClauseRef) : Bool := c.x != 2 ^ 32 - 1

/-- A watch-list entry (`Watch`). -/
structure Watch where
  clause_ref : ClauseRef
  blocker : Lit
deriving DecidableEq

/-- The default-constructed watch. -/
def Watch.dflt : Watch := ⟨ClauseRef.invalid, Lit.invalid⟩

/-- `Watch::operator==` compares only the clause reference (the blocker is
ignored); `removeWatch` relies on this. -/
def Watch.eq2 (w1 w2 : Watch) : Bool := w1.clause_ref == w2.clause_ref

/-- Per-variable metadata (`VariableMetadata`). -/
structure VariableMetadata where
  reason_clause_idx : ClauseRef
  decision_level : Nat
deriving DecidableEq

/-- The clause arena (`Clauses`): clause storage with a free-slot list and
per-clause activities.  `double` activities are modelled as `ℚ`. -/
structure Clauses where
  clauses : List (List Lit)
  free_indices_clauses : List Nat
  activities : List ℚ

/-- `Clauses::size()`. -/
def Clauses.size (c : Clauses) : Nat := c.clauses.length

/-- `Clauses::addClause`: reuse the most recently freed slot
(`back`/`pop_back` on the free list) if one exists, else append. -/
def Clauses.addClause (c : Clauses) (literals : List Lit) (is_learned_clause : Bool) :
    Clauses × ClauseRef :=
  if c.free_indices_clauses ≠ [] then
    let idx := c.free_indices_clauses.getLastD 0
    ({ c with
        free_indices_clauses := c.free_indices_clauses.dropLast,
        clauses := c.clauses.set idx literals,
        activities := c.activities.set idx 0 },
      ClauseRef.mk2 idx is_learned_clause)
  else
    ({ c with
        clauses := c.clauses ++ [literals],
        activities := c.activities ++ [0] },
      ClauseRef.mk2 c.clauses.length is_learned_clause)

/-- `Clauses::removeClause`: the tail slot is truncated, an inner slot is
emptied in place and recorded on the free list. -/
def Clauses.removeClause (c : Clauses) (clause_ref : ClauseRef) : Clauses :=
  let idx := clause_ref.idx
  if idx = c.clauses.length - 1 then
    { c with clauses := c.clauses.dropLast, activities := c.activities.dropLast }
  else
    { c with
        clauses := c.clauses.set idx [],
        activities := c.activities.set idx 0,
        free_indices_clauses := c.free_indices_clauses ++ [idx] }

/-- `Clauses::operator[]`. -/
def Clauses.get (c : Clauses) (clause_ref : ClauseRef) : List Lit :=
  c.clauses.getD clause_ref.idx []

/-- `Clauses::activity`. -/
def Clauses.activity (c : Clauses) (clause_ref : ClauseRef) : ℚ :=
  c.activities.getD clause_ref.idx 0

/-! ## `options.hpp` (doubles modelled as `ℚ`; the C++ double nearest to
`1.0/3.0` differs from `1/3` by an error that is irrelevant to every theorem
below, since the factor is only ever applied to values that make the
comparison outcome insensitive to it in the traces evaluated here). -/

/-- `CLAUSE_ACTIVITY_DECAY = 0.999`. -/
def CLAUSE_ACTIVITY_DECAY : ℚ := mkRat 999 1000

/-- `MAX_LEARNED_CLAUSES_FACTOR = 1.0 / 3.0`. -/
def MAX_LEARNED_CLAUSES_FACTOR : ℚ := mkRat 1 3

/-- `MAX_LEARNED_CLAUSES_INCREMENT = 1.1`. -/
def MAX_LEARNED_CLAUSES_INCREMENT : ℚ := mkRat 11 10

/-- `MAX_LEARNED_ADJUST_INCREMENT = 1.5`. -/
def MAX_LEARNED_ADJUST_INCREMENT : ℚ := mkRat 3 2

/-- `RESTART_FIRST = 100`. -/
def RESTART_FIRST : ℚ := 100

/-- `RESTART_INC = 2.0`. -/
def RESTART_INC : ℚ := 2

/-! ## `solver.hpp`: solver state -/

/-- The solver exit codes. -/
inductive SolverExitCode
  | unknown
  | sat
  | unsat
deriving DecidableEq

/-- The numeric exit codes (`UNKNOWN = 0`, `SAT = 10`, `UNSAT = 20`). -/
def SolverExitCode.toCode : SolverExitCode → Nat
  | SolverExitCode.unknown => 0
  | SolverExitCode.sat => 10
  | SolverExitCode.unsat => 20

/-- `SolverStatistics`. -/
structure SolverStatistics where
  num_variables : Nat
  num_clauses : Nat
  num_literals_in_clauses : Nat
  num_learned_clauses : Nat
  num_literals_in_learned_clauses : Nat
  num_restarts : Nat
  num_decisions : Nat
  num_total_conflicts : Nat
  num_propagations : Nat
deriving DecidableEq

/-- The `Solver` state.  `std::mt19937` is modelled by an arbitrary stream
`rand` and a cursor `rand_ctr`; all other fields correspond one-to-one to the
C++ members. -/
structure Solver where
  clauses : Clauses
  learned_clauses : Clauses
  trail : List Lit
  trail_separators : List Nat
  trail_propagation_head : Nat
  variable_values : List VVal
  variable_polarity : List Bool
  variable_metadata : List VariableMetadata
  literals_watched_by : List (List Watch)
  unset_variables : List Nat
  clause_activity_increment : ℚ
  max_learned_clauses : ℚ
  learned_size_adjust_on_conflict : ℚ
  learned_size_adjust_count : Nat
  rand : Nat → Nat
  rand_ctr : Nat
  stats : SolverStatistics

/-- The freshly constructed solver (`Solver::Solver`), with the Mersenne
twister seeded with 42 abstracted to a given stream. -/
def initSolver (rand : Nat → Nat) : Solver where
  clauses := ⟨[], [], []⟩
  learned_clauses := ⟨[], [], []⟩
  trail := []
  trail_separators := []
  trail_propagation_head := 0
  variable_values := []
  variable_polarity := []
  variable_metadata := []
  literals_watched_by := []
  unset_variables := []
  clause_activity_increment := 1
  max_learned_clauses := 0
  learned_size_adjust_on_conflict := 100
  learned_size_adjust_count := 100
  rand := rand
  rand_ctr := 0
  stats := ⟨0, 0, 0, 0, 0, 0, 0, 0, 0⟩

/-- `std::vector::resize(n, d)`. -/
def listResize (l : List α) (n : Nat) (d : α) : List α :=
  if n ≤ l.length then l.take n else l ++ List.replicate (n - l.length) d

/-- `Solver::numVariables()`. -/
def Solver.numVariables (s : Solver) : Nat := s.stats.num_variables

/-- `Solver::numClauses()`. -/
def Solver.numClauses (s : Solver) : Nat := s.stats.num_clauses

/-- `Solver::createVariables`. -/
def Solver.createVariables (s : Solver) (num_variables : Nat) : Solver :=
  let s := { s with stats := { s.stats with num_variables := num_variables } }
  { s with
    variable_values := listResize s.variable_values s.numVariables VVal.vunset,
    variable_polarity := listResize s.variable_polarity s.numVariables false,
    variable_metadata := listResize s.variable_metadata s.numVariables ⟨ClauseRef.invalid, 0⟩,
    literals_watched_by := listResize s.literals_watched_by (s.numVariables * 2) [] }

/-- Read `variable_values[v]`. -/
def Solver.valueOf (s : Solver) (v : Nat) : VVal := s.variable_values.getD v VVal.vunset

/-- Read `variable_metadata[v]`. -/
def Solver.metaOf (s : Solver) (v : Nat) : VariableMetadata :=
  s.variable_metadata.getD v ⟨ClauseRef.invalid, 0⟩

/-- `Solver::literalTrue`. -/
def Solver.literalTrue (s : Solver) (l : Lit) : Bool := (s.valueOf l.var).eqBool l.polarity

/-- `Solver::literalFalse`. -/
def Solver.literalFalse (s : Solver) (l : Lit) : Bool := (s.valueOf l.var).eqBool (!l.polarity)

/-- `Solver::decisionLevel()`. -/
def Solver.decisionLevel (s : Solver) : Nat := s.trail_separators.length

/-- `Solver::clauseAt` (the two arenas selected by the origin bit). -/
def Solver.clauseAt (s : Solver) (clause_ref : ClauseRef) : List Lit :=
  if clause_ref.isLearned then s.learned_clauses.get clause_ref else s.clauses.get clause_ref

/-- Write back through the reference returned by `Solver::clauseAt` (the C++
code mutates clauses in place through that reference). -/
def Solver.setClauseAt (s : Solver) (clause_ref : ClauseRef) (c : List Lit) : Solver :=
  if clause_ref.isLearned then
    { s with learned_clauses :=
        { s.learned_clauses with clauses := s.learned_clauses.clauses.set clause_ref.idx c } }
  else
    { s with clauses := { s.clauses with clauses := s.clauses.clauses.set clause_ref.idx c } }

/-- `Solver::isLockedClause`: the clause is the recorded reason of its first
literal, which is currently true. -/
def Solver.isLockedClause (s : Solver) (clause_ref : ClauseRef) : Bool :=
  let clause := s.clauseAt clause_ref
  let l0 := clause.getD 0 Lit.invalid
  s.literalTrue l0 && (s.metaOf l0.var).reason_clause_idx.valid &&
    ((s.metaOf l0.var).reason_clause_idx == clause_ref)

/-- `Solver::increaseClauseActivity`, including the `1e20` rescale. -/
def Solver.increaseClauseActivity (s : Solver) (clause_ref : ClauseRef) : Solver :=
  let activity := qAdd (s.learned_clauses.activity clause_ref) s.clause_activity_increment
  let s := { s with learned_clauses :=
      { s.learned_clauses with activities := s.learned_clauses.activities.set clause_ref.idx activity } }
  if (100000000000000000000 : ℚ) < activity then
    { s with
      learned_clauses :=
        { s.learned_clauses with activities :=
            s.learned_clauses.activities.map (fun a => qMul a (mkRat 1 100000000000000000000)) },
      clause_activity_increment :=
        qMul s.clause_activity_increment (mkRat 1 100000000000000000000) }
  else s

/-- `Solver::assignLiteral` (the caller guarantees the variable is unset). -/
def Solver.assignLiteral (s : Solver) (literal : Lit) (reason_clause_idx : ClauseRef) : Solver :=
  let var := literal.var
  { s with
    variable_values := s.variable_values.set var (VVal.ofBool literal.polarity),
    variable_metadata := s.variable_metadata.set var ⟨reason_clause_idx, s.decisionLevel⟩,
    trail := s.trail ++ [literal] }

/-- One backward step of `Solver::revertTrail`: unset the assignment, save
the phase, and return the variable to the unset pool. -/
def Solver.unassignOne (s : Solver) (literal_to_revert : Lit) : Solver :=
  let variable_ := literal_to_revert.var
  let polarity := literal_to_revert.polarity
  { s with
    variable_values := s.variable_values.set variable_ VVal.vunset,
    variable_polarity := s.variable_polarity.set variable_ polarity,
    unset_variables := s.unset_variables ++ [variable_] }

/-- `Solver::revertTrail`: undo, from the top of the trail down, every
assignment above the separator of `level`, then truncate trail, separators
and the propagation head. -/
def Solver.revertTrail (s : Solver) (level : Nat) : Solver :=
  if s.decisionLevel > level then
    let k := s.trail_separators.getD level 0
    let s2 := ((s.trail.drop k).reverse).foldl (fun acc l => acc.unassignOne l) s
    { s2 with
      trail_propagation_head := k,
      trail := s2.trail.take k,
      trail_separators := s2.trail_separators.take level }
  else s

/-- Append a watch to `literals_watched_by[idx]`. -/
def Solver.pushWatch (s : Solver) (idx : Nat) (w : Watch) : Solver :=
  { s with literals_watched_by :=
      s.literals_watched_by.set idx ((s.literals_watched_by.getD idx []) ++ [w]) }

/-- `Solver::removeWatch`: delete the first entry with the same clause
reference, shifting the rest left.  (The source asserts that the watch is
present; on absent watches we leave the list unchanged.) -/
def removeWatchList (watches : List Watch) (watch_to_remove : Watch) : List Watch :=
  watches.eraseIdx (watches.findIdx (fun w => w.eq2 watch_to_remove))

/-- `Solver::attachClause`: store the clause in its arena, bump the
statistics, and file the two watches. -/
def Solver.attachClause (s : Solver) (literals : List Lit) (is_learned : Bool) :
    Solver × ClauseRef :=
  let first_literal := literals.getD 0 Lit.invalid
  let second_literal := literals.getD 1 Lit.invalid
  let added :=
    if is_learned then
      let p := s.learned_clauses.addClause literals true
      ({ s with
          stats := { s.stats with
            num_learned_clauses := s.stats.num_learned_clauses + 1,
            num_literals_in_learned_clauses :=
              s.stats.num_literals_in_learned_clauses + literals.length },
          learned_clauses := p.1 }, p.2)
    else
      let p := s.clauses.addClause literals false
      ({ s with
          stats := { s.stats with
            num_clauses := s.stats.num_clauses + 1,
            num_literals_in_clauses := s.stats.num_literals_in_clauses + literals.length },
          clauses := p.1 }, p.2)
  let s1 := added.1.pushWatch first_literal.neg.x ⟨added.2, second_literal⟩
  let s2 := s1.pushWatch second_literal.neg.x ⟨added.2, first_literal⟩
  (s2, added.2)

/-- `Solver::detachClause`: unfile both watches, clear the reason if the
clause was locked, fix the statistics, and free the arena slot. -/
def Solver.detachClause (s : Solver) (clause_ref : ClauseRef) : Solver :=
  let clause := s.clauseAt clause_ref
  let l0 := clause.getD 0 Lit.invalid
  let l1 := clause.getD 1 Lit.invalid
  let w0 := removeWatchList (s.literals_watched_by.getD l0.neg.x []) ⟨clause_ref, l1⟩
  let s := { s with literals_watched_by := s.literals_watched_by.set l0.neg.x w0 }
  let w1 := removeWatchList (s.literals_watched_by.getD l1.neg.x []) ⟨clause_ref, l0⟩
  let s := { s with literals_watched_by := s.literals_watched_by.set l1.neg.x w1 }
  let s :=
    if s.isLockedClause clause_ref then
      { s with variable_metadata :=
          s.variable_metadata.set l0.var ⟨ClauseRef.invalid, (s.metaOf l0.var).decision_level⟩ }
    else s
  if clause_ref.isLearned then
    { s with
      stats := { s.stats with
        num_learned_clauses := s.stats.num_learned_clauses - 1,
        num_literals_in_learned_clauses :=
          s.stats.num_literals_in_learned_clauses - clause.length },
      learned_clauses := s.learned_clauses.removeClause clause_ref }
  else
    { s with
      stats := { s.stats with
        num_clauses := s.stats.num_clauses - 1,
        num_literals_in_clauses := s.stats.num_literals_in_clauses - clause.length },
      clauses := s.clauses.removeClause clause_ref }

/-! ## Learned-clause pruning -/

/-- Insert into a sorted list (helper for modelling `std::sort`). -/
def insertSortedBy (le : α → α → Bool) (a : α) : List α → List α
  | [] => [a]
  | b :: rest => if le a b then a :: b :: rest else b :: insertSortedBy le a rest

/-- Insertion sort (helper for modelling `std::sort`; `std::sort` is
unstable, so any order among tied keys is a faithful model — every use below
either has distinct keys or only consumes values that are independent of the
tie order). -/
def insertionSortBy (le : α → α → Bool) : List α → List α
  | [] => []
  | a :: rest => insertSortedBy le a (insertionSortBy le rest)

/-- The indices of non-empty (live) learned-clause slots, in arena order
(the collection loop at the top of `pruneLearnedClauses`). -/
def Solver.liveLearnedIndices (s : Solver) : List Nat :=
  (List.range s.learned_clauses.size).filter
    (fun i => !(s.learned_clauses.get (ClauseRef.mk2 i true)).isEmpty)

/-- The live learned-clause indices sorted by ascending activity
(`std::sort` with the activity comparator). -/
def Solver.sortedLearnedIndices (s : Solver) : List Nat :=
  insertionSortBy
    (fun i j => decide (s.learned_clauses.activity (ClauseRef.mk2 i true) ≤
      s.learned_clauses.activity (ClauseRef.mk2 j true)))
    s.liveLearnedIndices

/-- `std::min(a, b)` (returns `a` on ties), kept as an explicit `if` so that
every concrete evaluation reduces in the kernel. -/
def stdMin (a b : ℚ) : ℚ := if b < a then b else a

/-- The pruning threshold of `pruneLearnedClauses`:
`min(median, clause_activity_increment / learned_clauses.size())`.  Note the
divisor is the arena slot count `Clauses::size()`, not the number of live
learned clauses. -/
def Solver.pruneThreshold (s : Solver) (learned_clause_ind : List Nat) : ℚ :=
  stdMin
    (s.learned_clauses.activity
      (ClauseRef.mk2 (learned_clause_ind.getD (learned_clause_ind.length / 2) 0) true))
    (qDiv s.clause_activity_increment (s.learned_clauses.size : ℚ))

/-- The deletion loop of `pruneLearnedClauses`, instrumented with a trace of
the detached references, each paired with the solver state at the moment the
clause was examined and detached. -/
def pruneLoop : Nat → Solver → ℚ → Nat → Solver × List (ClauseRef × Solver)
  | 0, s, _, _ => (s, [])
  | fuel + 1, s, pruneThresh, i =>
    if i < s.learned_clauses.size then
      if (s.learned_clauses.get (ClauseRef.mk2 i true)).isEmpty then
        pruneLoop fuel s pruneThresh (i + 1)
      else if (s.learned_clauses.get (ClauseRef.mk2 i true)).length > 2 &&
          decide (s.learned_clauses.activity (ClauseRef.mk2 i true) < pruneThresh) &&
          !(s.isLockedClause (ClauseRef.mk2 i true)) then
        ((pruneLoop fuel (s.detachClause (ClauseRef.mk2 i true)) pruneThresh (i + 1)).1,
          (ClauseRef.mk2 i true, s) ::
            (pruneLoop fuel (s.detachClause (ClauseRef.mk2 i true)) pruneThresh (i + 1)).2)
      else pruneLoop fuel s pruneThresh (i + 1)
    else (s, [])

/-- `Solver::pruneLearnedClauses` together with its detach trace. -/
def Solver.pruneLearnedClausesT (s : Solver) : Solver × List (ClauseRef × Solver) :=
  let ind := s.sortedLearnedIndices
  let pruneThresh := s.pruneThreshold ind
  pruneLoop (s.learned_clauses.size + 1) s pruneThresh 0

/-- `Solver::pruneLearnedClauses`. -/
def Solver.pruneLearnedClauses (s : Solver) : Solver := s.pruneLearnedClausesT.1

/-! ## Unit propagation (two-watched-literals) -/

/-- Overwrite `watches[j]` inside `literals_watched_by[p]` (the compaction
write of the watch walk). -/
def Solver.setWatchAt (s : Solver) (p : Lit) (j : Nat) (w : Watch) : Solver :=
  { s with literals_watched_by :=
      s.literals_watched_by.set p.x ((s.literals_watched_by.getD p.x []).set j w) }

/-- `watches.resize(j)` at the end of the watch walk. -/
def Solver.watchResize (s : Solver) (p : Lit) (j : Nat) : Solver :=
  { s with literals_watched_by :=
      s.literals_watched_by.set p.x ((s.literals_watched_by.getD p.x []).take j) }

/-- The scan `for (k = 2; k < clause.size(); ++k)` for a non-false
replacement watch; returns the first such position. -/
def findNonFalse (s : Solver) (clause : List Lit) (k : Nat) : Option Nat :=
  if k < clause.length then
    if s.literalFalse (clause.getD k Lit.invalid) then findNonFalse s clause (k + 1)
    else some k
  else none
termination_by clause.length - k

/-- The inner watch-list walk of `Solver::propagate` with its two compaction
cursors `i` (read) and `j` (write).  The list is re-read from the state on
every step, exactly as the C++ reference into `literals_watched_by` is.  The
fuel passed by `propagateLoop` covers the full walk for every state the
solver reaches (the walked list never grows during its own walk, since a new
watch is always filed under a literal that is currently not false, while the
walked literal is true). -/
def propWatchLoop : Nat → Solver → Lit → ClauseRef → Nat → Nat → Solver × ClauseRef
  | 0, s, p, conflict, _, j => (s.watchResize p j, conflict)
  | fuel + 1, s, p, conflict, i, j =>
    let watches := s.literals_watched_by.getD p.x []
    if i < watches.length then
      let blocker := (watches.getD i Watch.dflt).blocker
      if s.literalTrue blocker then
        let s := s.setWatchAt p j (watches.getD i Watch.dflt)
        propWatchLoop fuel s p conflict (i + 1) (j + 1)
      else
        let clause_ref := (watches.getD i Watch.dflt).clause_ref
        let clause0 := s.clauseAt clause_ref
        let not_literal := p.neg
        let clause1 :=
          if clause0.getD 0 Lit.invalid == not_literal then
            (clause0.set 0 (clause0.getD 1 Lit.invalid)).set 1 not_literal
          else clause0
        let s := s.setClauseAt clause_ref clause1
        let i2 := i + 1
        let first_literal := clause1.getD 0 Lit.invalid
        let new_watch : Watch := ⟨clause_ref, first_literal⟩
        if first_literal != blocker && s.literalTrue first_literal then
          let s := s.setWatchAt p j new_watch
          propWatchLoop fuel s p conflict i2 (j + 1)
        else
          match findNonFalse s clause1 2 with
          | some k =>
            let clause2 := (clause1.set 1 (clause1.getD k Lit.invalid)).set k not_literal
            let s := s.setClauseAt clause_ref clause2
            let s := s.pushWatch (clause2.getD 1 Lit.invalid).neg.x new_watch
            propWatchLoop fuel s p conflict i2 j
          | none =>
            let s := s.setWatchAt p j new_watch
            let j2 := j + 1
            if s.literalFalse first_literal then
              let cur := s.literals_watched_by.getD p.x []
              let s := { s with
                literals_watched_by := s.literals_watched_by.set p.x (cur.take j2 ++ cur.drop i2),
                trail_propagation_head := s.trail.length }
              (s, clause_ref)
            else
              let s := s.assignLiteral first_literal clause_ref
              propWatchLoop fuel s p conflict i2 j2
    else (s.watchResize p j, conflict)

/-- The outer loop of `Solver::propagate` over the pending trail suffix. -/
def propagateLoop : Nat → Solver → ClauseRef → Solver × ClauseRef
  | 0, s, conflict => (s, conflict)
  | fuel + 1, s, conflict =>
    if s.trail_propagation_head < s.trail.length then
      let literal_to_propagate := s.trail.getD s.trail_propagation_head Lit.invalid
      let s := { s with
        trail_propagation_head := s.trail_propagation_head + 1,
        stats := { s.stats with num_propagations := s.stats.num_propagations + 1 } }
      let innerFuel := (s.literals_watched_by.getD literal_to_propagate.x []).length +
        s.stats.num_variables + 1
      let inner := propWatchLoop innerFuel s literal_to_propagate conflict 0 0
      propagateLoop fuel inner.1 inner.2
    else (s, conflict)

/-- `Solver::propagate`: process every pending trail entry; the fuel
`num_variables + trail.length + 1` dominates the number of outer iterations
in every state with each variable assigned at most once. -/
def Solver.propagate (s : Solver) : Solver × ClauseRef :=
  propagateLoop (s.stats.num_variables + s.trail.length + 1) s ClauseRef.invalid

/-! ## Loading clauses (`Solver::addClause`) -/

/-- Sort literals ascending by their packed representation (`std::sort` with
`Literal::operator<`; equal keys are identical literals, so tie order is
immaterial). -/
def sortLits (l : List Lit) : List Lit :=
  insertionSortBy (fun a b => decide (a.x ≤ b.x)) l

/-- The single simplification pass of `Solver::addClause` over the sorted
literal list, carrying `last_literal`: `none` models the early
`return true` (clause satisfied at level 0, or tautological pair), `some
kept` the surviving literals. -/
def addClauseScan (s : Solver) : Lit → List Lit → Option (List Lit)
  | _, [] => some []
  | last_literal, curr_literal :: rest =>
    if (s.valueOf curr_literal.var).eqBool curr_literal.polarity then none
    else if curr_literal == last_literal.neg then none
    else if (s.valueOf curr_literal.var).eqBool (!curr_literal.polarity) then
      addClauseScan s last_literal rest
    else if curr_literal == last_literal then addClauseScan s last_literal rest
    else (addClauseScan s curr_literal rest).map (fun l => curr_literal :: l)

/-- `Solver::addClause`. -/
def Solver.addClause (s : Solver) (literals : List Lit) : Solver × Bool :=
  match addClauseScan s Lit.invalid (sortLits literals) with
  | none => (s, true)
  | some kept =>
    if kept.isEmpty then (s, false)
    else if kept.length == 1 then
      (((s.assignLiteral (kept.getD 0 Lit.invalid) ClauseRef.invalid).propagate).1,
        !(((s.assignLiteral (kept.getD 0 Lit.invalid) ClauseRef.invalid).propagate).2.valid))
    else ((s.attachClause kept false).1, true)

/-! ## Branching and shuffling -/

/-- One draw of `uniform_int_distribution(0, bound-1)` from the abstract
stream: for `bound ≤ 1` the distribution is deterministic (it can only
return 0, whatever the generator produces); otherwise the draw is the next
stream value reduced modulo the bound.  The cursor advance is handled by the
caller. -/
def drawBelow (rand : Nat → Nat) (ctr bound : Nat) : Nat :=
  if bound ≤ 1 then 0 else rand ctr % bound

/-- The selection loop of `Solver::pickBranchLiteral`: swap-remove a random
pool entry until an unset variable is found.  The fuel equals the pool
length, which strictly decreases per iteration, so fuel exhaustion coincides
with pool exhaustion (both return `none`). -/
def pickBranchLoop : Nat → Solver → Option Lit × Solver
  | 0, s => (none, s)
  | fuel + 1, s =>
    if s.unset_variables.length > 0 then
      let len := s.unset_variables.length
      let idx := drawBelow s.rand s.rand_ctr len
      let var := s.unset_variables.getD idx 0
      let pool := (s.unset_variables.set idx (s.unset_variables.getLastD 0)).dropLast
      let s := { s with unset_variables := pool, rand_ctr := s.rand_ctr + 1 }
      if (s.valueOf var).isUnset then
        (some (Lit.mk2 var (s.variable_polarity.getD var false)), s)
      else pickBranchLoop fuel s
    else (none, s)

/-- `Solver::pickBranchLiteral`. -/
def Solver.pickBranchLiteral (s : Solver) : Option Lit × Solver :=
  pickBranchLoop s.unset_variables.length s

/-- Fisher–Yates shuffle driven by the solver's random stream (the model of
`std::shuffle`); the argument of `shuffleLoop` is the current swap index. -/
def shuffleLoop : Nat → Solver → List Nat → List Nat × Solver
  | 0, s, l => (l, s)
  | i + 1, s, l =>
    let jdx := drawBelow s.rand s.rand_ctr (i + 2)
    let vi := l.getD (i + 1) 0
    let vj := l.getD jdx 0
    shuffleLoop i { s with rand_ctr := s.rand_ctr + 1 } ((l.set (i + 1) vj).set jdx vi)

/-- `std::shuffle(unset_variables, random_gen)` as used by `simplify`. -/
def Solver.shufflePool (s : Solver) (l : List Nat) : List Nat × Solver :=
  shuffleLoop (l.length - 1) s l

/-! ## Top-level simplification -/

/-- `Solver::isClauseSatisfied`. -/
def Solver.isClauseSatisfied (s : Solver) (clause : List Lit) : Bool :=
  clause.any (fun l => s.literalTrue l)

/-- The in-place trim of positions `2..n` in `removeSatisfiedClauses`
(swap-with-back and `pop_back` on level-0-false literals, revisiting the
swapped-in position). -/
def trimLoop : Nat → Solver → List Lit → Nat → List Lit
  | 0, _, clause, _ => clause
  | fuel + 1, s, clause, i =>
    if i < clause.length then
      if (s.valueOf (clause.getD i Lit.invalid).var).isFalse then
        trimLoop fuel s ((clause.set i (clause.getLastD Lit.invalid)).dropLast) i
      else trimLoop fuel s clause (i + 1)
    else clause

/-- The per-arena loop of `Solver::removeSatisfiedClauses` (the arena size is
re-read on every iteration, as in the C++ `for` condition). -/
def removeSatLoop : Nat → Solver → Bool → Nat → Solver
  | 0, s, _, _ => s
  | fuel + 1, s, is_learned, clause_idx =>
    let container := if is_learned then s.learned_clauses else s.clauses
    if clause_idx < container.size then
      let clause_ref := ClauseRef.mk2 clause_idx is_learned
      let clause := container.get clause_ref
      let s :=
        if clause.isEmpty then s
        else if s.isClauseSatisfied clause then s.detachClause clause_ref
        else s.setClauseAt clause_ref (trimLoop (clause.length + 1) s clause 2)
      removeSatLoop fuel s is_learned (clause_idx + 1)
    else s

/-- `Solver::simplify`: top-level propagation, removal of satisfied clauses
in both arenas, and the rebuild + shuffle of the unset-variable pool. -/
def Solver.simplify (s : Solver) : Solver × Bool :=
  let pr := s.propagate
  if pr.2.valid then (pr.1, false)
  else
    let s := pr.1
    let s := removeSatLoop (s.learned_clauses.size + 1) s true 0
    let s := removeSatLoop (s.clauses.size + 1) s false 0
    let pool := (List.range s.variable_values.length).filter (fun v => (s.valueOf v).isUnset)
    let sh := s.shufflePool pool
    ({ sh.2 with unset_variables := sh.1 }, true)

/-! ## Conflict analysis -/

/-- The marks used by `analyzeConflict` (`VariableStatus`). -/
inductive VariableStatus
  | unset
  | is_source
  | removable
  | removal_failed
deriving DecidableEq

/-- The per-clause literal scan of the main `analyzeConflict` loop: mark
unseen above-level-0 variables, count current-level ones in `path_length`,
append the others to the learned clause. -/
def analyzeScan (s : Solver) :
    List Lit → List VariableStatus → Int → List Lit →
      List VariableStatus × Int × List Lit
  | [], seen, path_length, learned => (seen, path_length, learned)
  | q :: rest, seen, path_length, learned =>
    let v := q.var
    if (seen.getD v VariableStatus.unset) == VariableStatus.unset &&
        decide ((s.metaOf v).decision_level > 0) then
      let seen := seen.set v VariableStatus.is_source
      if (s.metaOf v).decision_level ≥ s.decisionLevel then
        analyzeScan s rest seen (path_length + 1) learned
      else analyzeScan s rest seen path_length (learned ++ [q])
    else analyzeScan s rest seen path_length learned

/-- `while (variable_seen[trail[index--].var()] == UNSET);` — returns the
value of `index` after the loop (one below the found position). -/
def analyzeFindPivot : Nat → Solver → List VariableStatus → Int → Int
  | 0, _, _, index => index - 1
  | fuel + 1, s, seen, index =>
    let v := (s.trail.getD index.toNat Lit.invalid).var
    if (seen.getD v VariableStatus.unset) == VariableStatus.unset then
      analyzeFindPivot fuel s seen (index - 1)
    else index - 1

/-- The main resolution loop (`do … while (path_length > 0)`) of
`analyzeConflict`; returns the updated solver (clause activities), the
learned clause with its placeholder slot, the final pivot, and the `seen`
marks. -/
def analyzeLoop :
    Nat → Solver → ClauseRef → List Lit → Int → Int → Lit → List VariableStatus →
      Solver × List Lit × Lit × List VariableStatus
  | 0, s, _, learned, _, _, asserting, seen => (s, learned, asserting, seen)
  | fuel + 1, s, conflict, learned, index, path_length, asserting, seen =>
    let s := if conflict.isLearned then s.increaseClauseActivity conflict else s
    let conflict_clause := s.clauseAt conflict
    let start := if asserting.valid then 1 else 0
    let scanned := analyzeScan s (conflict_clause.drop start) seen path_length learned
    let seen := scanned.1
    let path_length := scanned.2.1
    let learned := scanned.2.2
    let index2 := analyzeFindPivot (s.trail.length + 1) s seen index
    let asserting := s.trail.getD (index2 + 1).toNat Lit.invalid
    let conflict2 := (s.metaOf asserting.var).reason_clause_idx
    let seen := seen.set asserting.var VariableStatus.unset
    let path_length := path_length - 1
    if path_length > 0 then analyzeLoop fuel s conflict2 learned index2 path_length asserting seen
    else (s, learned, asserting, seen)

/-- The explicit-stack walk of `isLiteralRedundantInConflictClause`.  The
pair components of a stack entry are the resumption position and the literal
whose reason clause is being examined; the result is the redundancy verdict
together with the updated `seen` cache. -/
def redundantLoop :
    Nat → Solver → List VariableStatus → Lit → Nat → List (Nat × Lit) →
      Bool × List VariableStatus
  | 0, _, seen, _, _, _ => (true, seen)
  | fuel + 1, s, seen, literal, i, stack =>
    let clause := s.clauseAt (s.metaOf literal.var).reason_clause_idx
    if i < clause.length then
      let parent := clause.getD i Lit.invalid
      if (s.metaOf parent.var).decision_level == 0 ||
          (seen.getD parent.var VariableStatus.unset) == VariableStatus.is_source ||
          (seen.getD parent.var VariableStatus.unset) == VariableStatus.removable then
        redundantLoop fuel s seen literal (i + 1) stack
      else if !((s.metaOf parent.var).reason_clause_idx.valid) ||
          (seen.getD parent.var VariableStatus.unset) == VariableStatus.removal_failed then
        let stack2 := stack ++ [(0, literal)]
        let seen2 := stack2.foldl
          (fun sn e =>
            if (sn.getD e.2.var VariableStatus.unset) == VariableStatus.unset then
              sn.set e.2.var VariableStatus.removal_failed
            else sn)
          seen
        (false, seen2)
      else redundantLoop fuel s seen parent 1 (stack ++ [(i, literal)])
    else
      let seen :=
        if (seen.getD literal.var VariableStatus.unset) == VariableStatus.unset then
          seen.set literal.var VariableStatus.removable
        else seen
      match stack.getLast? with
      | none => (true, seen)
      | some top => redundantLoop fuel s seen top.2 (top.1 + 1) stack.dropLast

/-- Ample fuel for the redundancy walk (never exhausted in solver states,
where the walk visits each reason edge finitely often). -/
def redundantFuel (s : Solver) : Nat :=
  (s.stats.num_variables + 1) *
    (s.stats.num_literals_in_clauses + s.stats.num_literals_in_learned_clauses +
      s.trail.length + 2)

/-- The minimization pass of `analyzeConflict` over positions `≥ 1`: keep a
literal iff it has no valid reason or is not redundant; the `seen` cache is
threaded left to right (and `isLiteralRedundantInConflictClause` is not
called at all when the reason is invalid, per short-circuit evaluation). -/
def minimizeLoop (s : Solver) :
    List Lit → List VariableStatus → List Lit × List VariableStatus
  | [], seen => ([], seen)
  | l :: rest, seen =>
    if !((s.metaOf l.var).reason_clause_idx.valid) then
      let r := minimizeLoop s rest seen
      (l :: r.1, r.2)
    else
      let red := redundantLoop (redundantFuel s) s seen l 1 []
      if !red.1 then
        let r := minimizeLoop s rest red.2
        (l :: r.1, r.2)
      else minimizeLoop s rest red.2

/-- The scan for the literal with the highest decision level among positions
`≥ 2` (ties keep the earlier index, as in the strict `>` comparison). -/
def maxLevelLoop (s : Solver) (lits : List Lit) (i : Nat) (max_i : Nat) : Nat :=
  if i < lits.length then
    if (s.metaOf (lits.getD i Lit.invalid).var).decision_level >
        (s.metaOf (lits.getD max_i Lit.invalid).var).decision_level then
      maxLevelLoop s lits (i + 1) i
    else maxLevelLoop s lits (i + 1) max_i
  else max_i
termination_by lits.length - i

/-- `Solver::analyzeConflict`: returns the updated solver, the learned
clause (asserting literal first), and the backtrack level. -/
def Solver.analyzeConflict (s : Solver) (conflict : ClauseRef) :
    Solver × List Lit × Nat :=
  let seen0 := List.replicate s.stats.num_variables VariableStatus.unset
  let r := analyzeLoop (s.trail.length + 1) s conflict [Lit.invalid]
    ((s.trail.length : Int) - 1) 0 Lit.invalid seen0
  let s := r.1
  let learned0 := r.2.1
  let asserting := r.2.2.1
  let seen := r.2.2.2
  let learned1 := learned0.set 0 asserting.neg
  let mt := minimizeLoop s (learned1.drop 1) seen
  let learned := learned1.take 1 ++ mt.1
  if learned.length ≠ 1 then
    let max_i := maxLevelLoop s learned 2 1
    let lmax := learned.getD max_i Lit.invalid
    let l1 := learned.getD 1 Lit.invalid
    let learned2 := (learned.set max_i l1).set 1 lmax
    (s, learned2, (s.metaOf lmax.var).decision_level)
  else (s, learned, 0)

/-! ## The search driver -/

/-- The body of `Solver::search` (the `while (true)` loop), with fuel.  Fuel
exhaustion returns the `UNKNOWN` of the unreachable tail `return`. -/
def searchLoop : Nat → Solver → Nat → Nat → SolverExitCode × Solver
  | 0, s, _, _ => (SolverExitCode.unknown, s)
  | fuel + 1, s, allowed_num_of_conflicts, num_conflicts =>
    let pr := s.propagate
    let s := pr.1
    let conflict := pr.2
    if conflict.valid then
      let s := { s with stats :=
        { s.stats with num_total_conflicts := s.stats.num_total_conflicts + 1 } }
      let num_conflicts := num_conflicts + 1
      if s.decisionLevel == 0 then (SolverExitCode.unsat, s)
      else
        let ar := s.analyzeConflict conflict
        let s := ar.1
        let learned_clause := ar.2.1
        let backtrack_level := ar.2.2
        let s := s.revertTrail backtrack_level
        let s :=
          if learned_clause.length == 1 then
            s.assignLiteral (learned_clause.getD 0 Lit.invalid) ClauseRef.invalid
          else
            let at2 := s.attachClause learned_clause true
            (at2.1.increaseClauseActivity at2.2).assignLiteral
              (learned_clause.getD 0 Lit.invalid) at2.2
        let inc2 := qMul s.clause_activity_increment (qDiv 1 CLAUSE_ACTIVITY_DECAY)
        let s := { s with clause_activity_increment := inc2 }
        let s := { s with learned_size_adjust_count := s.learned_size_adjust_count - 1 }
        let s :=
          if s.learned_size_adjust_count == 0 then
            let adj := qMul s.learned_size_adjust_on_conflict MAX_LEARNED_ADJUST_INCREMENT
            { s with
              learned_size_adjust_on_conflict := adj,
              learned_size_adjust_count := qToUInt adj,
              max_learned_clauses := qMul s.max_learned_clauses MAX_LEARNED_CLAUSES_INCREMENT }
          else s
        searchLoop fuel s allowed_num_of_conflicts num_conflicts
    else
      if num_conflicts ≥ allowed_num_of_conflicts then
        (SolverExitCode.unknown, s.revertTrail 0)
      else
        let sim := if s.decisionLevel == 0 then s.simplify else (s, true)
        if !sim.2 then (SolverExitCode.unsat, sim.1)
        else
          let s := sim.1
          let s :=
            if qAdd s.max_learned_clauses (s.trail.length : ℚ) ≤ (s.learned_clauses.size : ℚ) then
              s.pruneLearnedClauses
            else s
          let s := { s with stats :=
            { s.stats with num_decisions := s.stats.num_decisions + 1 } }
          let pk := s.pickBranchLiteral
          match pk.1 with
          | none => (SolverExitCode.sat, pk.2)
          | some next_literal =>
            let s := pk.2
            let s := { s with trail_separators := s.trail_separators ++ [s.trail.length] }
            let s := s.assignLiteral next_literal ClauseRef.invalid
            searchLoop fuel s allowed_num_of_conflicts num_conflicts

/-- `Solver::search(allowed_num_of_conflicts)` with explicit loop fuel. -/
def Solver.search (s : Solver) (fuel : Nat) (allowed_num_of_conflicts : Nat) :
    SolverExitCode × Solver :=
  searchLoop fuel s allowed_num_of_conflicts 0

/-- The restart loop of `Solver::solve` (`while (status == UNKNOWN)`), with
fuel for the number of rounds; each round uses `search_fuel` for its inner
loop.  The budget is `(uint32)(luby(RESTART_INC, restarts) * RESTART_FIRST)`
(truncation of a nonnegative value = floor). -/
def solveMainLoop : Nat → Nat → Solver → SolverExitCode × Solver
  | 0, _, s => (SolverExitCode.unknown, s)
  | fuel + 1, search_fuel, s =>
    let restart_base_value := luby RESTART_INC s.stats.num_restarts
    let budget := qToUInt (qMul restart_base_value RESTART_FIRST)
    let r := s.search search_fuel budget
    let s2 := { r.2 with stats :=
      { r.2.stats with num_restarts := r.2.stats.num_restarts + 1 } }
    match r.1 with
    | SolverExitCode.unknown => solveMainLoop fuel search_fuel s2
    | status => (status, s2)

/-- `Solver::solve` with explicit fuels for the restart loop and each search
round.  The zero-variable / zero-clause short circuit, the initial
simplification, and the initialisation of `max_learned_clauses` precede the
loop, as in the source. -/
def Solver.solve (s : Solver) (fuel : Nat) (search_fuel : Nat) :
    SolverExitCode × Solver :=
  if s.numVariables == 0 || s.numClauses == 0 then (SolverExitCode.unknown, s)
  else
    let sim := s.simplify
    if !sim.2 then (SolverExitCode.unsat, sim.1)
    else
      let s := sim.1
      let s := { s with max_learned_clauses := qMul (s.numClauses : ℚ) MAX_LEARNED_CLAUSES_FACTOR }
      let s := { s with stats := { s.stats with num_restarts := 0 } }
      solveMainLoop fuel search_fuel s

/-- `Solver::model()`. -/
def Solver.model (s : Solver) : List VVal := s.variable_values

/-! ## `parse.hpp`: the DIMACS byte-level state machine

The C++ parser is a template over the solver type; it is modelled here over a
record of the two callbacks it uses (`createVariables`, `addClause`), and
instantiated both with the real solver and with the mock solver of
`tests/nanosat_sat_test.cpp`.  File/pipe handling and the chunked `fread` are
transparent to the state machine and are not modelled: the byte stream is
consumed directly. -/

/-- The parser states (`ParseState`). -/
inductive ParseState
  | NEW_LINE
  | EXPECT_NEW_LINE
  | COMMENT
  | HEADER_P_
  | HEADER_P_C
  | HEADER_P_CN
  | HEADER_P_CNF
  | HEADER_P_CNF_
  | HEADER_P_CNF_N
  | HEADER_P_CNF_N_
  | HEADER_P_CNF_N_N
  | HEADER_P_CNF_N_N_
  | CLAUSE_DIGIT
  | CLAUSE_DIGIT_SPACE
  | CLAUSE_DIGIT_MINUS
deriving DecidableEq

/-- The two solver entry points consumed by the parser template. -/
structure SolverCallbacks (σ : Type) where
  createVariables : σ → Nat → σ
  addClause : σ → List Lit → σ × Bool

/-- The parser's mutable locals (the solver under construction, the header
and running counts, the current clause, and the literal accumulator). -/
structure ParseCtx (σ : Type) where
  solver : σ
  num_variables_header : Nat
  curr_num_variables : Nat
  num_clauses_header : Nat
  curr_num_clauses : Nat
  processed_header : Bool
  clause : List Lit
  variable_ : Nat
  sign : Bool
  curr_state : ParseState

/-- The outcome of one step of the state machine. -/
inductive ParseStep (σ : Type)
  | cont (ctx : ParseCtx σ)
  | done (s : σ)
  | fail

/-- `c == '\n' || c == '\r'`. -/
def isNewline (c : Char) : Bool := c == '\n' || c == '\r'

/-- `c >= '1' && c <= '9'`. -/
def isDigit19 (c : Char) : Bool := 49 ≤ c.toNat && c.toNat ≤ 57

/-- `c >= '0' && c <= '9'`. -/
def isDigit09 (c : Char) : Bool := 48 ≤ c.toNat && c.toNat ≤ 57

/-- `c - '0'`. -/
def digitVal (c : Char) : Nat := c.toNat - 48

/-- One step of the parser switch statement on the next byte `c`. -/
def parseChar (cb : SolverCallbacks σ) (ctx : ParseCtx σ) (c : Char) : ParseStep σ :=
  match ctx.curr_state with
  | ParseState.NEW_LINE =>
    if isNewline c then ParseStep.cont ctx
    else if !ctx.processed_header && c == 'p' then
      ParseStep.cont { ctx with curr_state := ParseState.HEADER_P_, processed_header := true }
    else if c == 'c' then ParseStep.cont { ctx with curr_state := ParseState.COMMENT }
    else if ctx.processed_header && c == '-' then
      ParseStep.cont { ctx with
        sign := false, curr_state := ParseState.CLAUSE_DIGIT,
        clause := [], curr_num_clauses := ctx.curr_num_clauses + 1 }
    else if ctx.processed_header && isDigit19 c then
      ParseStep.cont { ctx with
        variable_ := digitVal c, sign := true, curr_state := ParseState.CLAUSE_DIGIT_SPACE,
        clause := [], curr_num_clauses := ctx.curr_num_clauses + 1 }
    else ParseStep.fail
  | ParseState.EXPECT_NEW_LINE =>
    if isNewline c then ParseStep.cont { ctx with curr_state := ParseState.NEW_LINE }
    else ParseStep.fail
  | ParseState.COMMENT =>
    if isNewline c then ParseStep.cont { ctx with curr_state := ParseState.NEW_LINE }
    else ParseStep.cont ctx
  | ParseState.HEADER_P_ =>
    if c == ' ' then ParseStep.cont { ctx with curr_state := ParseState.HEADER_P_C }
    else ParseStep.fail
  | ParseState.HEADER_P_C =>
    if c == 'c' then ParseStep.cont { ctx with curr_state := ParseState.HEADER_P_CN }
    else ParseStep.fail
  | ParseState.HEADER_P_CN =>
    if c == 'n' then ParseStep.cont { ctx with curr_state := ParseState.HEADER_P_CNF }
    else ParseStep.fail
  | ParseState.HEADER_P_CNF =>
    if c == 'f' then ParseStep.cont { ctx with curr_state := ParseState.HEADER_P_CNF_ }
    else ParseStep.fail
  | ParseState.HEADER_P_CNF_ =>
    if c == ' ' then ParseStep.cont { ctx with curr_state := ParseState.HEADER_P_CNF_N }
    else ParseStep.fail
  | ParseState.HEADER_P_CNF_N =>
    if isDigit19 c then
      ParseStep.cont { ctx with
        num_variables_header := digitVal c, curr_state := ParseState.HEADER_P_CNF_N_ }
    else ParseStep.fail
  | ParseState.HEADER_P_CNF_N_ =>
    if c == ' ' then ParseStep.cont { ctx with curr_state := ParseState.HEADER_P_CNF_N_N }
    else if isDigit09 c then
      ParseStep.cont { ctx with
        num_variables_header := 10 * ctx.num_variables_header + digitVal c }
    else ParseStep.fail
  | ParseState.HEADER_P_CNF_N_N =>
    if isDigit19 c then
      ParseStep.cont { ctx with
        num_clauses_header := digitVal c, curr_state := ParseState.HEADER_P_CNF_N_N_ }
    else ParseStep.fail
  | ParseState.HEADER_P_CNF_N_N_ =>
    if isNewline c then
      ParseStep.cont { ctx with
        solver := cb.createVariables ctx.solver ctx.num_variables_header,
        curr_state := ParseState.NEW_LINE }
    else if isDigit09 c then
      ParseStep.cont { ctx with
        num_clauses_header := 10 * ctx.num_clauses_header + digitVal c }
    else ParseStep.fail
  | ParseState.CLAUSE_DIGIT =>
    if isDigit19 c then
      ParseStep.cont { ctx with
        variable_ := digitVal c, curr_state := ParseState.CLAUSE_DIGIT_SPACE }
    else ParseStep.fail
  | ParseState.CLAUSE_DIGIT_SPACE =>
    if c == ' ' then
      ParseStep.cont { ctx with
        curr_state := ParseState.CLAUSE_DIGIT_MINUS,
        clause := ctx.clause ++ [Lit.mk2 (ctx.variable_ - 1) ctx.sign],
        curr_num_variables :=
          if ctx.variable_ > ctx.curr_num_variables then ctx.variable_
          else ctx.curr_num_variables,
        sign := true }
    else if isDigit09 c then
      ParseStep.cont { ctx with variable_ := 10 * ctx.variable_ + digitVal c }
    else ParseStep.fail
  | ParseState.CLAUSE_DIGIT_MINUS =>
    if c == '-' then
      ParseStep.cont { ctx with curr_state := ParseState.CLAUSE_DIGIT, sign := false }
    else if c == '0' then
      let r := cb.addClause ctx.solver ctx.clause
      if r.2 then
        ParseStep.cont { ctx with solver := r.1, curr_state := ParseState.EXPECT_NEW_LINE }
      else ParseStep.done r.1
    else if isDigit19 c then
      ParseStep.cont { ctx with
        variable_ := digitVal c, curr_state := ParseState.CLAUSE_DIGIT_SPACE }
    else ParseStep.fail

/-- The result of `parseCnf`: `ok` (including the early return when
`addClause` reports the formula trivially UNSAT), or one of the three fatal
diagnostics. -/
inductive ParseResult (σ : Type)
  | ok (s : σ)
  | fail_token
  | fail_variables
  | fail_clauses

/-- Consume the byte stream; at end-of-file check the final state and the
header counts, as the epilogue of `parseCnf` does. -/
def parseRun (cb : SolverCallbacks σ) : ParseCtx σ → List Char → ParseResult σ
  | ctx, [] =>
    if ctx.curr_state ≠ ParseState.NEW_LINE then ParseResult.fail_token
    else if ctx.curr_num_variables ≠ ctx.num_variables_header then ParseResult.fail_variables
    else if ctx.curr_num_clauses ≠ ctx.num_clauses_header then ParseResult.fail_clauses
    else ParseResult.ok ctx.solver
  | ctx, c :: rest =>
    match parseChar cb ctx c with
    | ParseStep.cont ctx2 => parseRun cb ctx2 rest
    | ParseStep.done s => ParseResult.ok s
    | ParseStep.fail => ParseResult.fail_token

/-- `parseCnf` on a byte stream, from the initial parser state. -/
def parseCnf (cb : SolverCallbacks σ) (init : σ) (input : List Char) : ParseResult σ :=
  parseRun cb
    { solver := init, num_variables_header := 0, curr_num_variables := 0,
      num_clauses_header := 0, curr_num_clauses := 0, processed_header := false,
      clause := [], variable_ := 0, sign := true, curr_state := ParseState.NEW_LINE }
    input

/-- The real solver's callbacks. -/
def solverCallbacks : SolverCallbacks Solver :=
  ⟨Solver.createVariables, Solver.addClause⟩

/-- The `SolverMock` of `tests/nanosat_sat_test.cpp`: it records every parsed
clause and always accepts. -/
structure SolverMock where
  num_variables : Nat
  num_clauses : Nat
  clauses : List (List Lit)
deriving DecidableEq

/-- The mock's callbacks (as in the test file). -/
def mockCallbacks : SolverCallbacks SolverMock where
  createVariables := fun m n => { m with num_variables := n }
  addClause := fun m c =>
    ({ m with clauses := m.clauses ++ [c], num_clauses := m.num_clauses + 1 }, true)

/-- The clauses of the formula in `input`, as collected by the mock parse
(the loaded formula, in the sense of the test harness). -/
def mockClauses (input : List Char) : List (List Lit) :=
  match parseCnf mockCallbacks ⟨0, 0, []⟩ input with
  | ParseResult.ok m => m.clauses
  | _ => []

/-! ## `logging.hpp` / `main.cpp`: the result line and the program run -/

/-- One literal of the `SAT` model line. -/
def modelLitStr (var : Nat) (v : VVal) : String :=
  if v.isTrue then " " ++ toString (var + 1) else " -" ++ toString (var + 1)

/-- The result line printed by `printModel`. -/
def printModelLine (exit_code : SolverExitCode) (model : List VVal) : String :=
  match exit_code with
  | SolverExitCode.unknown => "UNKNOWN"
  | SolverExitCode.unsat => "UNSAT"
  | SolverExitCode.sat =>
    "SAT" ++ String.join
      ((List.range model.length).map (fun var => modelLitStr var (model.getD var VVal.vunset)))

/-- The observable outcome of a successful program run: the process exit
code and the result line on stdout (the diagnostic progress output is not
modelled). -/
structure ProgramRun where
  exit_code : Nat
  result_line : String
deriving DecidableEq

/-- `main` after a successful argument check: parse, solve, print the result
line, and exit with the solver's code.  `none` models the `std::exit` paths
of the parser.  The two fuels are passed through to `Solver.solve`. -/
def runProgram (rand : Nat → Nat) (input : List Char) (fuel search_fuel : Nat) :
    Option ProgramRun :=
  match parseCnf solverCallbacks (initSolver rand) input with
  | ParseResult.ok solver =>
    let r := solver.solve fuel search_fuel
    some ⟨r.1.toCode, printModelLine r.1 r.2.model⟩
  | _ => none

/-! ## Specification-side definitions (used to state the claims) -/

/-- Specification-side: adjacent deduplication of a sorted literal list
("dropping duplicates"). -/
def dedupAdj : List Lit → List Lit
  | [] => []
  | [a] => [a]
  | a :: b :: rest =>
    if a == b then dedupAdj (b :: rest) else a :: dedupAdj (b :: rest)

/-- Specification-side: the literals surviving "sorting and dropping
level-0-false literals and duplicates" (the simplification described for
`add_clause`). -/
def specSurvivors (s : Solver) (lits : List Lit) : List Lit :=
  dedupAdj ((sortLits lits).filter (fun l => !(s.literalFalse l)))

/-- Specification-side: the clause is already true at level 0, or contains
both a literal and its negation. -/
def trivSat (s : Solver) (lits : List Lit) : Prop :=
  (∃ l ∈ lits, s.literalTrue l) ∨ (∃ l ∈ lits, l.neg ∈ lits)

instance (s : Solver) (lits : List Lit) : Decidable (trivSat s lits) := by
  unfold trivSat
  infer_instance

/-- Specification-side: assigning `l` at level 0 with an invalid reason and
propagating produces a conflict (the condition of step 4 of `add_clause`). -/
def unitConflicts (s : Solver) (l : Lit) : Bool :=
  ((s.assignLiteral l ClauseRef.invalid).propagate).2.valid

/-- Helper for the `add_clause` scan analysis: adjacent deduplication of a
literal list relative to the last kept literal. -/
def dedupFrom (last : Lit) : List Lit → List Lit
  | [] => []
  | a :: rest => if a == last then dedupFrom last rest else a :: dedupFrom a rest

/-- The early-return condition of the `add_clause` scan over the remaining
sorted literals `rest` with last kept literal `last`: some literal of `rest`
is true at the current assignment, or `rest` contains a tautological pair on
an unassigned variable, or the negation of the last kept literal occurs in
`rest`. -/
def ScanTrig (s : Solver) (last : Lit) (rest : List Lit) : Prop :=
  (∃ m ∈ rest, s.literalTrue m = true) ∨
  (∃ m ∈ rest, m.neg ∈ rest ∧ s.literalTrue m = false ∧ s.literalFalse m = false) ∨
  last.neg ∈ rest

/-- A call of `add_clause` whose clause reduces to exactly one surviving
literal and is not discarded as trivially satisfied (the hypothesis of the
degenerate-formula claim): the scan of the sorted literals keeps exactly one
literal. -/
def SingletonStep (s : Solver) (lits : List Lit) : Prop :=
  ∃ l : Lit, addClauseScan s Lit.invalid (sortLits lits) = some [l]

instance (s : Solver) (lits : List Lit) : Decidable (SingletonStep s lits) :=
  match h : addClauseScan s Lit.invalid (sortLits lits) with
  | some [l] => Decidable.isTrue ⟨l, h⟩
  | some [] => Decidable.isFalse (by rintro ⟨l, hl⟩; rw [h] at hl; cases hl)
  | some (a :: b :: r) => Decidable.isFalse (by rintro ⟨l, hl⟩; rw [h] at hl; cases hl)
  | none => Decidable.isFalse (by rintro ⟨l, hl⟩; rw [h] at hl; cases hl)

/-- Loading a list of clauses through `add_clause`, as the parser does
(stopping early when `add_clause` reports `false`, as `parseCnf` does). -/
def loadClauses : Solver → List (List Lit) → Solver
  | s, [] => s
  | s, c :: rest =>
    if (s.addClause c).2 then loadClauses (s.addClause c).1 rest else (s.addClause c).1

/-- Every `add_clause` call of the load reduces its clause to a single
surviving literal and reports `true`. -/
def AllSingletonSteps : Solver → List (List Lit) → Prop
  | _, [] => True
  | s, c :: rest =>
    SingletonStep s c ∧ (s.addClause c).2 = true ∧ AllSingletonSteps (s.addClause c).1 rest

instance instAllSingletonStepsDec :
    ∀ (s : Solver) (cs : List (List Lit)), Decidable (AllSingletonSteps s cs)
  | _, [] => Decidable.isTrue trivial
  | s, c :: rest =>
    have h3 : Decidable (AllSingletonSteps (s.addClause c).1 rest) :=
      instAllSingletonStepsDec (s.addClause c).1 rest
    inferInstanceAs (Decidable (_ ∧ _ ∧ _))

/-- Specification-side satisfaction of a clause by a model, with still-unset
variables treated as freely assignable (the model-soundness reading of the
tests). -/
def clauseSatOrFree (model : List VVal) (clause : List Lit) : Bool :=
  clause.any (fun l =>
    (model.getD l.var VVal.vunset).eqBool l.polarity ||
      (model.getD l.var VVal.vunset).isUnset)

/-- The byte stream of the trivially UNSAT scenario S1:
`p cnf 1 2\n1 0\n-1 0\n`. -/
def dimacsInput1 : List Char := "p cnf 1 2\n1 0\n-1 0\n".toList

/-- The byte stream of an UNSAT formula whose last clause empties during
loading after a unit clause: `p cnf 2 3\n1 2 0\n1 0\n-1 0\n`
((x1 ∨ x2) ∧ x1 ∧ ¬x1). -/
def dimacsInput2 : List Char := "p cnf 2 3\n1 2 0\n1 0\n-1 0\n".toList

/-- The solver state after `main`'s parse-and-solve pipeline (the state
whose `model()` the program prints); `none` on parse failure. -/
def runSolverState (rand : Nat → Nat) (input : List Char) (fuel search_fuel : Nat) :
    Option Solver :=
  match parseCnf solverCallbacks (initSolver rand) input with
  | ParseResult.ok solver => some (solver.solve fuel search_fuel).2
  | _ => none

/-- Invariant (trail consistency): for every index `i` into the trail, the
stored value of variable `trail[i].var` equals `trail[i].polarity`. -/
def TrailConsistent (s : Solver) : Prop :=
  ∀ i, i < s.trail.length →
    s.valueOf (s.trail.getD i Lit.invalid).var =
      VVal.ofBool (s.trail.getD i Lit.invalid).polarity

instance (s : Solver) : Decidable (TrailConsistent s) := by
  unfold TrailConsistent
  exact Nat.decidableBallLT _ _

/-- The variables on the trail are pairwise distinct (a companion invariant,
established by `assignLiteral`'s unset precondition). -/
def TrailVarsNodup (s : Solver) : Prop := (s.trail.map Lit.var).Nodup

instance (s : Solver) : Decidable (TrailVarsNodup s) := by
  unfold TrailVarsNodup
  exact List.nodupDecidable _

/-- Specification-side: the median activity of the live learned clauses,
i.e. the activity at the middle position of the live indices sorted by
ascending activity (shared by the spec's and the code's threshold). -/
def Solver.medianLiveActivity (s : Solver) : ℚ :=
  s.learned_clauses.activity
    (ClauseRef.mk2 (s.sortedLearnedIndices.getD (s.sortedLearnedIndices.length / 2) 0) true)

/-- Specification-side (the claimed pruning threshold):
`min(median_activity, clause_activity_increment / num_live_learned)` with the
divisor the number of *live* learned clauses. -/
def Solver.claimPruneThreshold (s : Solver) : ℚ :=
  stdMin s.medianLiveActivity
    (qDiv s.clause_activity_increment (s.liveLearnedIndices.length : ℚ))

/-- The references actually detached by one `pruneLearnedClauses` call. -/
def Solver.pruneDetachedRefs (s : Solver) : List ClauseRef :=
  s.pruneLearnedClausesT.2.map Prod.fst

/-- The deletion condition of the pruning loop, as a predicate on a state, a
threshold, and a learned-arena index: live, longer than binary, activity
strictly below the threshold, and not locked. -/
def Solver.pruneCond (s : Solver) (th : ℚ) (i : Nat) : Bool :=
  let r := ClauseRef.mk2 i true
  let c := s.learned_clauses.get r
  !c.isEmpty && decide (c.length > 2) &&
    decide (s.learned_clauses.activity r < th) && !(s.isLockedClause r)

/-- The learned-clause references satisfying the deletion condition for a
given threshold, in arena order. -/
def Solver.belowThresholdRefs (s : Solver) (th : ℚ) : List ClauseRef :=
  ((List.range s.learned_clauses.size).filter (s.pruneCond th)).map
    (fun i => ClauseRef.mk2 i true)

/-- A small concrete solver state (two variables; variable 0 assigned true
at decision level 1), used to instantiate the invariant theorems. -/
def exampleStateA : Solver :=
  { initSolver (fun _ => 0) with
    variable_values := [VVal.vtrue, VVal.vunset],
    variable_polarity := [false, false],
    variable_metadata := [⟨ClauseRef.invalid, 1⟩, ⟨ClauseRef.invalid, 0⟩],
    trail := [Lit.mk2 0 true],
    trail_separators := [0],
    stats := { (initSolver (fun _ => 0)).stats with num_variables := 2 } }

/-- A concrete solver state for the pruning theorems: nine unset variables;
a learned arena with three live ternary clauses of activities `7/2`, `100`,
`200`, one tombstoned slot (index 3, on the free list), and
`clause_activity_increment = 12`.  The arena slot count is 4 while the live
count is 3, so the two threshold formulas differ (`12/4 = 3` versus
`12/3 = 4`), and the clause of activity `7/2` sits strictly between them. -/
def exampleStateB : Solver :=
  { initSolver (fun _ => 0) with
    variable_values := List.replicate 9 VVal.vunset,
    variable_polarity := List.replicate 9 false,
    variable_metadata := List.replicate 9 ⟨ClauseRef.invalid, 0⟩,
    literals_watched_by := List.replicate 18 [],
    clause_activity_increment := 12,
    learned_clauses :=
      ⟨[[Lit.mk2 0 true, Lit.mk2 1 true, Lit.mk2 2 true],
        [Lit.mk2 3 true, Lit.mk2 4 true, Lit.mk2 5 true],
        [Lit.mk2 6 true, Lit.mk2 7 true, Lit.mk2 8 true],
        []],
       [3],
       [mkRat 7 2, 100, 200, 0]⟩,
    stats := { (initSolver (fun _ => 0)).stats with
      num_variables := 9, num_learned_clauses := 3,
      num_literals_in_learned_clauses := 9 } }

/-! # Theorems -/

/-! ## The kernel-reducible rational operations agree with Mathlib's -/

theorem qAdd_eq (a b : ℚ) : qAdd a b = a + b := (Rat.add_def' a b).symm

theorem qMul_eq (a b : ℚ) : qMul a b = a * b := by
  unfold qMul
  rw [Rat.mul_def, Rat.normalize_eq_mkRat]

theorem qInv_eq (a : ℚ) : qInv a = a⁻¹ := by
  unfold qInv
  rw [← Rat.inv_def]
  rfl

theorem qDiv_eq (a b : ℚ) : qDiv a b = a / b := by
  unfold qDiv
  rw [qMul_eq, qInv_eq, div_eq_mul_inv]

theorem qPowNat_eq (y : ℚ) : ∀ n : Nat, qPowNat y n = y ^ n
  | 0 => rfl
  | n + 1 => by
    rw [qPowNat, qMul_eq, qPowNat_eq y n, pow_succ, mul_comm]

theorem qPow_eq (y : ℚ) (e : Int) : qPow y e = y ^ e := by
  unfold qPow
  split
  · rename_i h
    have he : ((e.natAbs : ℤ)) = -e := by omega
    rw [qInv_eq, qPowNat_eq, ← zpow_natCast y e.natAbs, he, ← zpow_neg, neg_neg]
  · rename_i h
    have he : ((e.natAbs : ℤ)) = e := by omega
    rw [qPowNat_eq, ← zpow_natCast y e.natAbs, he]

theorem luby_eq_zpow (y : ℚ) (x : Nat) : luby y x = y ^ lubyExp x := qPow_eq y (lubyExp x)

/-! ## Luby sequence (C8) -/

/-- The length of the reference block is `2^k - 1`. -/
theorem lubyBlock_length (k : Nat) : (lubyBlock k).length = 2 ^ k - 1 := by
  induction k with
  | zero => rfl
  | succ k ih =>
    have h2 : 1 ≤ 2 ^ k := Nat.one_le_two_pow
    simp [lubyBlock, ih, pow_succ]
    omega

/-- Any fuel at least the loop measure `x + 1 - size` gives the growing loop
the same result. -/
theorem lubyGrowF_fuel :
    ∀ f1 f2 x size : Nat, ∀ seq : Int, x + 1 - size ≤ f1 → x + 1 - size ≤ f2 →
      lubyGrowF f1 x size seq = lubyGrowF f2 x size seq := by
  intro f1
  induction f1 with
  | zero =>
    intro f2 x size seq h1 h2
    have hge : ¬ size < x + 1 := by omega
    cases f2 with
    | zero => rfl
    | succ g =>
      show (size, seq) = lubyGrowF (g + 1) x size seq
      rw [lubyGrowF, if_neg hge]
  | succ f ih =>
    intro f2 x size seq h1 h2
    by_cases hlt : size < x + 1
    · obtain ⟨g, rfl⟩ : ∃ g, f2 = g + 1 := ⟨f2 - 1, by omega⟩
      rw [lubyGrowF, lubyGrowF, if_pos hlt, if_pos hlt]
      exact ih g x (2 * size + 1) (seq + 1) (by omega) (by omega)
    · cases f2 with
      | zero =>
        show lubyGrowF (f + 1) x size seq = (size, seq)
        rw [lubyGrowF, if_neg hlt]
      | succ g => rw [lubyGrowF, lubyGrowF, if_neg hlt, if_neg hlt]

/-- The fuelled growing loop satisfies the loop equation of the source. -/
theorem lubyGrow_unfold (x size : Nat) (seq : Int) :
    lubyGrow x size seq =
      if size < x + 1 then lubyGrow x (2 * size + 1) (seq + 1) else (size, seq) := by
  unfold lubyGrow
  by_cases h : size < x + 1
  · rw [if_pos h]
    obtain ⟨f, hf⟩ : ∃ f, x + 1 - size = f + 1 := ⟨x - size, by omega⟩
    rw [hf, lubyGrowF, if_pos h]
    exact lubyGrowF_fuel f (x + 1 - (2 * size + 1)) x (2 * size + 1) (seq + 1)
      (by omega) (by omega)
  · rw [if_neg h]
    have hz : x + 1 - size = 0 := by omega
    rw [hz]
    rfl

/-- The growing loop of `luby` always stops at a size of the form
`2^(q+1) - 1` that exceeds `x`, starting from any state of that form. -/
theorem lubyGrow_eq :
    ∀ n x s : Nat, x + 1 - (2 ^ (s + 1) - 1) ≤ n →
      ∃ q : Nat, lubyGrow x (2 ^ (s + 1) - 1) (s : Int) = (2 ^ (q + 1) - 1, (q : Int)) ∧
        x < 2 ^ (q + 1) - 1 := by
  intro n
  induction n with
  | zero =>
    intro x s h
    have h1 : 1 ≤ 2 ^ (s + 1) := Nat.one_le_two_pow
    have hge : ¬ (2 ^ (s + 1) - 1 < x + 1) := by omega
    refine ⟨s, ?_, by omega⟩
    rw [lubyGrow_unfold, if_neg hge]
  | succ n ih =>
    intro x s h
    by_cases hlt : 2 ^ (s + 1) - 1 < x + 1
    · have h1 : 1 ≤ 2 ^ (s + 1) := Nat.one_le_two_pow
      have hsz : 2 * (2 ^ (s + 1) - 1) + 1 = 2 ^ (s + 2) - 1 := by
        have : 2 ^ (s + 2) = 2 * 2 ^ (s + 1) := by ring
        omega
      have hmeas : x + 1 - (2 ^ (s + 2) - 1) ≤ n := by
        have : 2 ^ (s + 2) = 2 * 2 ^ (s + 1) := by ring
        omega
      have hstep : lubyGrow x (2 ^ (s + 1) - 1) (s : Int) =
          lubyGrow x (2 ^ (s + 2) - 1) ((s + 1 : Nat) : Int) := by
        rw [lubyGrow_unfold, if_pos hlt, hsz]
        push_cast
        ring_nf
      rw [hstep]
      exact ih x (s + 1) hmeas
    · refine ⟨s, ?_, by omega⟩
      rw [lubyGrow_unfold, if_neg hlt]

/-- One resolution step of the reference block: below the last position,
indexing into block `s+2` is indexing into block `s+1` at the index reduced
modulo the length of block `s+1`. -/
theorem lubyBlock_getD_step (s x : Nat) (hx : x < 2 ^ (s + 2) - 2) :
    (lubyBlock (s + 2)).getD x 0 = (lubyBlock (s + 1)).getD (x % (2 ^ (s + 1) - 1)) 0 := by
  have hlen : (lubyBlock (s + 1)).length = 2 ^ (s + 1) - 1 := lubyBlock_length (s + 1)
  have h1 : 1 ≤ 2 ^ (s + 1) := Nat.one_le_two_pow
  have h2 : 2 ^ (s + 2) = 2 * 2 ^ (s + 1) := by ring
  show ((lubyBlock (s + 1) ++ lubyBlock (s + 1) ++ [s + 1]).getD x 0) = _
  rcases Nat.lt_or_ge x (2 ^ (s + 1) - 1) with hcase | hcase
  · rw [Nat.mod_eq_of_lt hcase]
    rw [List.append_assoc]
    exact List.getD_append _ _ _ _ (by omega)
  · have hxm : x % (2 ^ (s + 1) - 1) = x - (2 ^ (s + 1) - 1) := by
      rw [Nat.mod_eq_sub_mod hcase, Nat.mod_eq_of_lt (by omega)]
    rw [hxm]
    have hlen2 : (lubyBlock (s + 1) ++ lubyBlock (s + 1)).length = 2 ^ (s + 2) - 2 := by
      simp [lubyBlock_length]
      omega
    rw [List.getD_append (lubyBlock (s + 1) ++ lubyBlock (s + 1)) [s + 1] 0 x (by omega)]
    rw [List.getD_append_right _ _ _ _ (by omega), hlen]

/-- The shrinking loop of `luby`, started on a size `2^(s+1) - 1` with
matching exponent, computes the reference exponent of block `s+1`. -/
theorem lubyShrink_eq :
    ∀ s x fuel : Nat, x < 2 ^ (s + 1) - 1 → s + 1 ≤ fuel →
      lubyShrink fuel (2 ^ (s + 1) - 1) (s : Int) x = ((lubyBlock (s + 1)).getD x 0 : Int) := by
  intro s
  induction s with
  | zero =>
    intro x fuel hx hfuel
    interval_cases x
    obtain ⟨f, rfl⟩ : ∃ f, fuel = f + 1 := ⟨fuel - 1, by omega⟩
    simp [lubyShrink, lubyBlock]
  | succ s ih =>
    intro x fuel hx hfuel
    obtain ⟨f, rfl⟩ : ∃ f, fuel = f + 1 := ⟨fuel - 1, by omega⟩
    have h1 : 1 ≤ 2 ^ (s + 1) := Nat.one_le_two_pow
    have h2 : 2 ^ (s + 2) = 2 * 2 ^ (s + 1) := by ring
    rw [lubyShrink]
    by_cases hend : 2 ^ (s + 2) - 1 - 1 = x
    · rw [if_pos hend]
      have hlen2 : (lubyBlock (s + 1) ++ lubyBlock (s + 1)).length = 2 ^ (s + 2) - 2 := by
        simp [lubyBlock_length]
        omega
      show ((s + 1 : Nat) : Int) = (((lubyBlock (s + 1) ++ lubyBlock (s + 1) ++ [s + 1]).getD x 0 : Nat) : Int)
      rw [List.getD_append_right _ _ _ _ (by omega)]
      have : x - (lubyBlock (s + 1) ++ lubyBlock (s + 1)).length = 0 := by omega
      rw [this]
      rfl
    · rw [if_neg hend]
      have hdiv : (2 ^ (s + 2) - 1 - 1) / 2 = 2 ^ (s + 1) - 1 := by omega
      have hcast : ((s + 1 : Nat) : Int) - 1 = (s : Int) := by push_cast; ring
      rw [hdiv, hcast]
      have hxlt : x % (2 ^ (s + 1) - 1) < 2 ^ (s + 1) - 1 :=
        Nat.mod_lt _ (by omega)
      rw [ih (x % (2 ^ (s + 1) - 1)) f hxlt (by omega)]
      rw [lubyBlock_getD_step s x (by omega)]

/-- Reading the reference sequence through any sufficiently large block gives
the same exponent. -/
theorem lubyBlock_getD_mono (j x : Nat) (hx : x < 2 ^ j - 1) :
    ∀ k, j ≤ k → (lubyBlock k).getD x 0 = (lubyBlock j).getD x 0 := by
  intro k
  induction k with
  | zero =>
    intro hjk
    have hj0 : j = 0 := Nat.le_zero.mp hjk
    subst hj0
    rfl
  | succ k ih =>
    intro hjk
    rcases Nat.lt_or_ge j (k + 1) with hcase | hcase
    · have hj : j ≤ k := by omega
      have hxk : x < 2 ^ k - 1 := by
        have : 2 ^ j ≤ 2 ^ k := Nat.pow_le_pow_right (by norm_num) hj
        omega
      have hlt : x < (lubyBlock k).length := by rw [lubyBlock_length]; omega
      calc (lubyBlock (k + 1)).getD x 0
          = ((lubyBlock k ++ lubyBlock k) ++ [k]).getD x 0 := rfl
        _ = (lubyBlock k ++ lubyBlock k).getD x 0 := List.getD_append _ _ _ _ (by simp; omega)
        _ = (lubyBlock k).getD x 0 := List.getD_append _ _ _ _ hlt
        _ = (lubyBlock j).getD x 0 := ih hj
    · have : j = k + 1 := by omega
      subst this
      rfl

/-- The exponent computed by the two loops of `luby` agrees with the
reference finite-subsequence construction. -/
theorem lubyExp_eq (k x : Nat) (hx : x < 2 ^ k - 1) :
    lubyExp x = ((lubyBlock k).getD x 0 : Int) := by
  obtain ⟨q, hgrow, hq⟩ := lubyGrow_eq (x + 1) x 0 (by omega)
  have hfuel : q + 1 ≤ 2 ^ (q + 1) - 1 := by
    have h1 : q + 1 < 2 ^ (q + 1) := Nat.lt_two_pow (q + 1)
    omega
  have hexp : lubyExp x = ((lubyBlock (q + 1)).getD x 0 : Int) := by
    unfold lubyExp
    have h10 : (2 : Nat) ^ (0 + 1) - 1 = 1 := by norm_num
    have hgrow0 : lubyGrow x 1 (0 : Int) = (2 ^ (q + 1) - 1, (q : Int)) := by
      have h := hgrow
      rwa [h10] at h
    rw [hgrow0]
    exact lubyShrink_eq q x (2 ^ (q + 1) - 1) hq hfuel
  rw [hexp]
  rcases Nat.le_total (q + 1) k with hle | hle
  · rw [lubyBlock_getD_mono (q + 1) x hq k hle]
  · rw [lubyBlock_getD_mono k x hx (q + 1) hle]

/-- C8: `luby(2.0, k)` for `k = 0..14` equals `2^seq_k` with exponents
`[0,0,1,0,0,1,2,0,0,1,0,0,1,2,3]`, and in general `luby(y, x)` is `y` raised
to the `x`-th exponent of Luby's finite-subsequence construction
(`lubyBlock`). -/
theorem c8_luby_correct :
    (∀ k : Nat, k < 15 →
      luby 2 k = 2 ^ (([0, 0, 1, 0, 0, 1, 2, 0, 0, 1, 0, 0, 1, 2, 3].getD k 0 : Nat) : Int)) ∧
    (∀ (y : ℚ) (k x : Nat), x < 2 ^ k - 1 →
      luby y x = y ^ (((lubyBlock k).getD x 0 : Nat) : Int)) := by
  constructor
  · intro k hk
    have hx : k < 2 ^ 4 - 1 := by omega
    rw [luby_eq_zpow, lubyExp_eq 4 k hx]
    norm_num
    congr 1
  · intro y k x hx
    rw [luby_eq_zpow, lubyExp_eq k x hx]

/-- Witness for C8 at concrete inputs (`k = 6` and `y = 3, k = 3, x = 5`). -/
theorem c8_luby_correct_witness :
    luby 2 6 = 2 ^ (([0, 0, 1, 0, 0, 1, 2, 0, 0, 1, 0, 0, 1, 2, 3].getD 6 0 : Nat) : Int) ∧
    luby 3 5 = 3 ^ (((lubyBlock 3).getD 5 0 : Nat) : Int) :=
  ⟨c8_luby_correct.1 6 (by norm_num), c8_luby_correct.2 3 3 5 (by norm_num)⟩

/-! ## CLI usage error (C9) -/

/-- C9 is false as stated: the usage-error message is *not* written to
stderr.  This refutes the formalised claim "for every argument count other
than 2 the program emits the usage message on stderr and exits nonzero" at
the concrete argument count 1. -/
theorem c9_counterexample :
    ¬ (∀ argc : Nat, argc ≠ 2 →
        ∃ m c, mainArgCheck argc = some (OutChannel.stderr, m, c) ∧ c ≠ 0) := by
  intro h
  rcases h 1 (by norm_num) with ⟨m, c, heq, hc⟩
  rw [mainArgCheck, if_pos (by norm_num)] at heq
  exact absurd (congrArg (fun o => (Option.map Prod.fst o)) heq) (by simp)

/-- C9 (amended): with an argument count other than exactly one path
argument, the program writes the usage-error message to *stdout* and exits
with the nonzero code `EXIT_FAILURE = 1`. -/
theorem c9_usage_error (argc : Nat) (h : argc ≠ 2) :
    mainArgCheck argc = some (OutChannel.stdout, usageMessage, 1) ∧ (1 : Nat) ≠ 0 := by
  rw [mainArgCheck, if_pos h]
  exact ⟨rfl, by norm_num⟩

/-- Witness for the amended C9 at `argc = 0` (no arguments at all). -/
theorem c9_usage_error_witness :
    mainArgCheck 0 = some (OutChannel.stdout, usageMessage, 1) ∧ (1 : Nat) ≠ 0 :=
  c9_usage_error 0 (by norm_num)

/-! ## Generic list access helpers -/

theorem getD_set_self {α : Type} (l : List α) (i : Nat) (a d : α) (h : i < l.length) :
    (l.set i a).getD i d = a := by
  simp [List.getD_eq_getElem?_getD, List.getElem?_set, h]

theorem getD_set_ne {α : Type} (l : List α) (i j : Nat) (a d : α) (h : i ≠ j) :
    (l.set i a).getD j d = l.getD j d := by
  simp [List.getD_eq_getElem?_getD, List.getElem?_set, h]

theorem getD_take_lt {α : Type} (l : List α) (k i : Nat) (d : α) (h : i < k) :
    (l.take k).getD i d = l.getD i d := by
  simp [List.getD_eq_getElem?_getD, List.getElem?_take, h]

/-! ## Trail consistency (C7) -/

theorem vofBool_ne_vunset (b : Bool) : VVal.ofBool b ≠ VVal.vunset := by
  cases b <;> simp [VVal.ofBool]

/-- Reverting literals touches neither the trail nor the separators. -/
theorem foldUnassign_trail (popped : List Lit) :
    ∀ s : Solver, (popped.foldl (fun acc l => acc.unassignOne l) s).trail = s.trail := by
  induction popped with
  | nil => intro s; rfl
  | cons p rest ih =>
    intro s
    rw [List.foldl_cons, ih]
    rfl

/-- Reverting literals leaves the values of untouched variables unchanged. -/
theorem foldUnassign_values (popped : List Lit) :
    ∀ (s : Solver) (v : Nat), v ∉ popped.map Lit.var →
      (popped.foldl (fun acc l => acc.unassignOne l) s).variable_values.getD v VVal.vunset =
        s.variable_values.getD v VVal.vunset := by
  induction popped with
  | nil => intro s v _; rfl
  | cons p rest ih =>
    intro s v hv
    simp only [List.map_cons, List.mem_cons, not_or] at hv
    rw [List.foldl_cons, ih _ v hv.2]
    exact getD_set_ne _ _ _ _ _ (fun he => hv.1 he.symm)

/-- Every trail entry of a consistent trail has a non-unset value. -/
theorem trail_entry_var_ne (s : Solver) (hc : TrailConsistent s) (lit : Lit)
    (hunset : s.valueOf lit.var = VVal.vunset) :
    ∀ l ∈ s.trail, l.var ≠ lit.var := by
  intro l hl he
  obtain ⟨n, hlt, hget⟩ := List.getElem_of_mem hl
  have h := hc n hlt
  rw [List.getD_eq_getElem _ _ hlt, hget, he, hunset] at h
  exact vofBool_ne_vunset l.polarity h.symm

/-- `assignLiteral` preserves and extends trail consistency, and keeps the
trail variables distinct, whenever its precondition (the assigned variable
is unset) holds. -/
theorem assignLiteral_trail_ok (s : Solver) (lit : Lit) (reason : ClauseRef)
    (hc : TrailConsistent s) (hn : TrailVarsNodup s)
    (hin : lit.var < s.variable_values.length)
    (hunset : s.valueOf lit.var = VVal.vunset) :
    TrailConsistent (s.assignLiteral lit reason) ∧
      TrailVarsNodup (s.assignLiteral lit reason) := by
  have hvars := trail_entry_var_ne s hc lit hunset
  constructor
  · intro i hi
    simp only [Solver.assignLiteral, Solver.valueOf] at hi ⊢
    rw [List.length_append, List.length_singleton] at hi
    rcases Nat.lt_or_ge i s.trail.length with hlt | hge
    · rw [List.getD_append _ _ _ _ hlt]
      have he : s.trail.getD i Lit.invalid ∈ s.trail := by
        rw [List.getD_eq_getElem _ _ hlt]
        exact List.getElem_mem hlt
      rw [getD_set_ne _ _ _ _ _ (Ne.symm (hvars _ he))]
      exact hc i hlt
    · have hieq : i = s.trail.length := by omega
      rw [List.getD_append_right _ _ _ _ hge, hieq]
      simp only [Nat.sub_self, List.getD_cons_zero]
      exact getD_set_self _ _ _ _ hin
  · simp only [TrailVarsNodup, Solver.assignLiteral, List.map_append, List.map_singleton]
    rw [List.nodup_append]
    refine ⟨hn, List.nodup_singleton _, ?_⟩
    intro a ha
    simp only [List.mem_singleton]
    intro hb
    obtain ⟨l, hl, hv⟩ := List.mem_map.mp ha
    exact hvars l hl (hv.trans hb)

/-- `revertTrail` preserves trail consistency for all entries that remain,
and keeps the trail variables distinct. -/
theorem revertTrail_trail_ok (s : Solver) (level : Nat)
    (hc : TrailConsistent s) (hn : TrailVarsNodup s) :
    TrailConsistent (s.revertTrail level) ∧ TrailVarsNodup (s.revertTrail level) := by
  unfold Solver.revertTrail
  by_cases hgt : s.decisionLevel > level
  · rw [if_pos hgt]
    have htr := foldUnassign_trail
      ((s.trail.drop (s.trail_separators.getD level 0)).reverse) s
    constructor
    · intro i hi
      simp only [Solver.valueOf] at hi ⊢
      rw [htr] at hi ⊢
      rw [List.length_take] at hi
      have hik : i < s.trail_separators.getD level 0 := by omega
      have hil : i < s.trail.length := by omega
      rw [getD_take_lt _ _ _ _ hik]
      have hmem : s.trail.getD i Lit.invalid ∈ s.trail.take (s.trail_separators.getD level 0) := by
        rw [← getD_take_lt s.trail _ i Lit.invalid hik]
        have hlen : i < (s.trail.take (s.trail_separators.getD level 0)).length := by
          rw [List.length_take]; omega
        rw [List.getD_eq_getElem _ _ hlen]
        exact List.getElem_mem hlen
      have hnot : (s.trail.getD i Lit.invalid).var ∉
          ((s.trail.drop (s.trail_separators.getD level 0)).reverse).map Lit.var := by
        intro hmem2
        simp only [List.map_reverse, List.mem_reverse] at hmem2
        obtain ⟨l2, hl2, hv2⟩ := List.mem_map.mp hmem2
        have hsplit : s.trail = s.trail.take (s.trail_separators.getD level 0) ++
            s.trail.drop (s.trail_separators.getD level 0) := (List.take_append_drop _ _).symm
        have hnod : ((s.trail.take (s.trail_separators.getD level 0)).map Lit.var ++
            (s.trail.drop (s.trail_separators.getD level 0)).map Lit.var).Nodup := by
          rw [← List.map_append, ← hsplit]
          exact hn
        rw [List.nodup_append] at hnod
        exact hnod.2.2 (List.mem_map_of_mem _ hmem)
          (hv2 ▸ List.mem_map_of_mem Lit.var hl2)
      rw [foldUnassign_values _ _ _ hnot]
      exact hc i hil
    · simp only [TrailVarsNodup]
      rw [htr, List.map_take]
      exact hn.sublist (List.take_sublist _ _)
  · rw [if_neg hgt]
    exact ⟨hc, hn⟩

/-- C7: trail consistency — `values[trail[i].var] == trail[i].polarity` for
every trail index `i` — is established for the pushed entry by
`assign_literal` (under its unset precondition) and preserved for all
remaining entries by `revert_trail`; both also preserve the distinctness of
trail variables that `assign_literal`'s precondition induces. -/
theorem c7_trail_consistency :
    (∀ (s : Solver) (lit : Lit) (reason : ClauseRef),
      TrailConsistent s → TrailVarsNodup s → lit.var < s.variable_values.length →
      s.valueOf lit.var = VVal.vunset →
      TrailConsistent (s.assignLiteral lit reason) ∧
        TrailVarsNodup (s.assignLiteral lit reason)) ∧
    (∀ (s : Solver) (level : Nat),
      TrailConsistent s → TrailVarsNodup s →
      TrailConsistent (s.revertTrail level) ∧ TrailVarsNodup (s.revertTrail level)) :=
  ⟨fun s lit reason hc hn hin hu => assignLiteral_trail_ok s lit reason hc hn hin hu,
   fun s level hc hn => revertTrail_trail_ok s level hc hn⟩

/-- Witness for C7 on a concrete two-variable state: assigning variable 1
and reverting to level 0. -/
theorem c7_trail_consistency_witness :
    (TrailConsistent (exampleStateA.assignLiteral (Lit.mk2 1 true) ClauseRef.invalid) ∧
      TrailVarsNodup (exampleStateA.assignLiteral (Lit.mk2 1 true) ClauseRef.invalid)) ∧
    (TrailConsistent (exampleStateA.revertTrail 0) ∧
      TrailVarsNodup (exampleStateA.revertTrail 0)) :=
  ⟨c7_trail_consistency.1 exampleStateA (Lit.mk2 1 true) ClauseRef.invalid
      (by decide) (by decide) (by decide) (by decide),
   c7_trail_consistency.2 exampleStateA 0 (by decide) (by decide)⟩

/-! ## Pruning never removes locked clauses (C6) -/

/-- Every detach recorded by the pruning loop passed the not-locked guard in
the very state in which the detach happened. -/
theorem pruneLoop_mem_not_locked :
    ∀ (fuel : Nat) (s : Solver) (th : ℚ) (i : Nat) (e : ClauseRef × Solver),
      e ∈ (pruneLoop fuel s th i).2 → e.2.isLockedClause e.1 = false := by
  intro fuel
  induction fuel with
  | zero =>
    intro s th i e h
    simp [pruneLoop] at h
  | succ fuel ih =>
    intro s th i e h
    rw [pruneLoop] at h
    split at h
    · split at h
      · exact ih _ _ _ _ h
      · split at h
        case isTrue hguard =>
          rcases List.mem_cons.mp h with heq | hmem
          · subst heq
            simp only [Bool.and_eq_true, Bool.not_eq_true'] at hguard
            exact hguard.2
          · exact ih _ _ _ _ hmem
        case isFalse hguard => exact ih _ _ _ _ h
    · simp at h

/-- C6: no learned clause detached by `prune_learned_clauses` is locked at
the moment of its removal (over the instrumented trace of every call, hence
over the whole run). -/
theorem c6_pruning_preserves_locked :
    ∀ s : Solver,
      (s.pruneLearnedClausesT.2.all (fun e => !(e.2.isLockedClause e.1))) = true := by
  intro s
  rw [List.all_eq_true]
  intro e he
  rw [Bool.not_eq_true']
  exact pruneLoop_mem_not_locked _ _ _ _ e he

/-! ## The pruning threshold and the detached set (C4) -/

theorem clauseRef_mk2_true_idx (i : Nat) : (ClauseRef.mk2 i true).idx = i := by
  simp [ClauseRef.mk2, ClauseRef.idx]
  omega

theorem clauseRef_mk2_true_isLearned (i : Nat) : (ClauseRef.mk2 i true).isLearned = true := by
  simp [ClauseRef.mk2, ClauseRef.isLearned]
  omega

/-- `detachClause` never touches the assignment. -/
theorem detachClause_values (s : Solver) (r : ClauseRef) :
    (s.detachClause r).variable_values = s.variable_values := by
  unfold Solver.detachClause
  dsimp only
  split
  · split <;> rfl
  · split <;> rfl

/-- `detachClause` of a clause that is not locked never touches the
per-variable metadata. -/
theorem detachClause_metadata (s : Solver) (r : ClauseRef)
    (hlock : s.isLockedClause r = false) :
    (s.detachClause r).variable_metadata = s.variable_metadata := by
  unfold Solver.detachClause
  dsimp only
  split <;> split
  all_goals try rfl
  all_goals
    rename_i hlk
    have hlk2 : s.isLockedClause r = true := hlk
    rw [hlock] at hlk2
    exact Bool.noConfusion hlk2

/-- `detachClause` of an unlocked learned clause acts on the learned arena
as `removeClause`. -/
theorem detachClause_learned_arena (s : Solver) (r : ClauseRef)
    (hl : r.isLearned = true) (hlock : s.isLockedClause r = false) :
    (s.detachClause r).learned_clauses = s.learned_clauses.removeClause r := by
  unfold Solver.detachClause
  dsimp only
  split
  · split <;> rfl
  · rename_i h2
    exact absurd hl h2

/-- `removeClause` of a non-tail slot keeps the arena size and every other
slot's clause and activity. -/
theorem removeClause_frame (c : Clauses) (i j : Nat) (hij : j ≠ i)
    (htail : i ≠ c.clauses.length - 1) :
    (c.removeClause (ClauseRef.mk2 i true)).size = c.size ∧
    (c.removeClause (ClauseRef.mk2 i true)).get (ClauseRef.mk2 j true) =
      c.get (ClauseRef.mk2 j true) ∧
    (c.removeClause (ClauseRef.mk2 i true)).activity (ClauseRef.mk2 j true) =
      c.activity (ClauseRef.mk2 j true) := by
  unfold Clauses.removeClause Clauses.get Clauses.activity Clauses.size
  simp only [clauseRef_mk2_true_idx]
  rw [if_neg htail]
  dsimp only
  refine ⟨by simp, ?_, ?_⟩
  · exact getD_set_ne _ _ _ _ _ (Ne.symm hij)
  · exact getD_set_ne _ _ _ _ _ (Ne.symm hij)

/-- Detaching an unlocked, non-tail learned clause preserves the arena size
and, for every other index, the clause, its activity, and its locked
status. -/
theorem detachClause_learned_frame (s : Solver) (i j : Nat) (hij : j ≠ i)
    (hlock : s.isLockedClause (ClauseRef.mk2 i true) = false)
    (htail : i ≠ s.learned_clauses.size - 1) :
    (s.detachClause (ClauseRef.mk2 i true)).learned_clauses.size = s.learned_clauses.size ∧
    (s.detachClause (ClauseRef.mk2 i true)).learned_clauses.get (ClauseRef.mk2 j true) =
      s.learned_clauses.get (ClauseRef.mk2 j true) ∧
    (s.detachClause (ClauseRef.mk2 i true)).learned_clauses.activity (ClauseRef.mk2 j true) =
      s.learned_clauses.activity (ClauseRef.mk2 j true) ∧
    (s.detachClause (ClauseRef.mk2 i true)).isLockedClause (ClauseRef.mk2 j true) =
      s.isLockedClause (ClauseRef.mk2 j true) := by
  have ha := detachClause_learned_arena s (ClauseRef.mk2 i true)
    (clauseRef_mk2_true_isLearned i) hlock
  have hrf := removeClause_frame s.learned_clauses i j hij htail
  refine ⟨by rw [ha]; exact hrf.1, by rw [ha]; exact hrf.2.1, by rw [ha]; exact hrf.2.2, ?_⟩
  have hv := detachClause_values s (ClauseRef.mk2 i true)
  have hm := detachClause_metadata s (ClauseRef.mk2 i true) hlock
  simp only [Solver.isLockedClause, Solver.clauseAt, clauseRef_mk2_true_isLearned, if_true,
    Solver.literalTrue, Solver.valueOf, Solver.metaOf]
  rw [ha, hrf.2.1, hv, hm]

/-- The trace of the pruning loop detaches exactly the indices satisfying
the deletion condition in the state at the start of the loop. -/
theorem pruneLoop_detached_spec :
    ∀ (fuel : Nat) (s : Solver) (th : ℚ) (i : Nat),
      s.learned_clauses.size ≤ fuel + i →
      (pruneLoop fuel s th i).2.map Prod.fst =
        ((List.range' i (s.learned_clauses.size - i)).filter (s.pruneCond th)).map
          (fun j => ClauseRef.mk2 j true) := by
  intro fuel
  induction fuel with
  | zero =>
    intro s th i hf
    have h0 : s.learned_clauses.size - i = 0 := by omega
    rw [h0]
    simp [pruneLoop]
  | succ fuel ih =>
    intro s th i hf
    simp only [pruneLoop]
    by_cases h1 : i < s.learned_clauses.size
    · rw [if_pos h1]
      have hrange : s.learned_clauses.size - i = (s.learned_clauses.size - (i + 1)) + 1 := by
        omega
      rw [hrange, List.range'_succ]
      by_cases h2 : (s.learned_clauses.get (ClauseRef.mk2 i true)).isEmpty = true
      · rw [if_pos h2]
        have hcond : s.pruneCond th i = false := by
          simp [Solver.pruneCond, h2]
        rw [List.filter_cons_of_neg (by rw [hcond]; exact Bool.false_ne_true)]
        exact ih s th (i + 1) (by omega)
      · rw [if_neg h2]
        by_cases h3 : (decide ((s.learned_clauses.get (ClauseRef.mk2 i true)).length > 2) &&
            decide (s.learned_clauses.activity (ClauseRef.mk2 i true) < th) &&
            !(s.isLockedClause (ClauseRef.mk2 i true))) = true
        · rw [if_pos h3]
          have h2f : (s.learned_clauses.get (ClauseRef.mk2 i true)).isEmpty = false :=
            Bool.eq_false_iff.mpr h2
          have hcond : s.pruneCond th i = true := by
            simp only [Bool.and_eq_true] at h3
            simp only [Solver.pruneCond, Bool.and_eq_true]
            exact ⟨⟨⟨by rw [h2f]; rfl, h3.1.1⟩, h3.1.2⟩, h3.2⟩
          rw [List.filter_cons_of_pos hcond]
          simp only [List.map_cons, List.map_map]
          have hlock : s.isLockedClause (ClauseRef.mk2 i true) = false := by
            simp only [Bool.and_eq_true, Bool.not_eq_true'] at h3
            exact h3.2
          by_cases htail : i = s.learned_clauses.size - 1
          · -- tail removal: the remaining range is empty on both sides
            have hsz : (s.detachClause (ClauseRef.mk2 i true)).learned_clauses.size = i := by
              rw [detachClause_learned_arena s _ (clauseRef_mk2_true_isLearned i) hlock]
              unfold Clauses.removeClause Clauses.size
              simp only [clauseRef_mk2_true_idx]
              have htail2 : i = s.learned_clauses.clauses.length - 1 := htail
              rw [if_pos htail2]
              dsimp only
              rw [List.length_dropLast]
              omega
            have hiq : i + 1 = s.learned_clauses.size := by omega
            rw [ih _ th (i + 1) (by omega), hsz]
            have hz1 : i - (i + 1) = 0 := by omega
            have hz2 : s.learned_clauses.size - (i + 1) = 0 := by omega
            rw [hz1, hz2]
            simp
          · -- non-tail removal: transfer the condition through the frame
            have hframe := fun (j : Nat) (hj : j ≠ i) =>
              detachClause_learned_frame s i j hj hlock htail
            have hsz : (s.detachClause (ClauseRef.mk2 i true)).learned_clauses.size =
                s.learned_clauses.size := (hframe (i + 1) (by omega)).1
            rw [ih _ th (i + 1) (by omega), hsz]
            have hcong : ∀ j ∈ List.range' (i + 1) (s.learned_clauses.size - (i + 1)),
                (s.detachClause (ClauseRef.mk2 i true)).pruneCond th j = s.pruneCond th j := by
              intro j hj
              have hjne : j ≠ i := by
                rcases List.mem_range'.mp hj with ⟨k, hk, rfl⟩
                omega
              have hf := hframe j hjne
              simp only [Solver.pruneCond]
              rw [hf.2.1, hf.2.2.1, hf.2.2.2]
            rw [List.filter_congr hcong]
        · rw [if_neg h3]
          have hcond : s.pruneCond th i = false := by
            rw [Bool.eq_false_iff]
            intro hcontra
            apply h3
            simp only [Solver.pruneCond, Bool.and_eq_true] at hcontra
            simp only [Bool.and_eq_true]
            exact ⟨⟨hcontra.1.1.2, hcontra.1.2⟩, hcontra.2⟩
          rw [List.filter_cons_of_neg (by rw [hcond]; exact Bool.false_ne_true)]
          exact ih s th (i + 1) (by omega)
    · rw [if_neg h1]
      have h0 : s.learned_clauses.size - i = 0 := by omega
      rw [h0]
      simp

/-- C4 is false as stated: on `exampleStateB` (one tombstoned learned slot)
the loop's threshold divides the activity increment by the arena slot count
(giving 3), not by the number of live learned clauses (giving 4), and the
set of clauses detached differs from the set the claimed threshold would
select. -/
theorem c4_counterexample :
    exampleStateB.pruneThreshold exampleStateB.sortedLearnedIndices ≠
      exampleStateB.claimPruneThreshold ∧
    exampleStateB.pruneDetachedRefs ≠
      exampleStateB.belowThresholdRefs exampleStateB.claimPruneThreshold := by
  decide

/-- C4 (amended): the pruning threshold equals the minimum of the median
live activity and `clause_activity_increment` divided by the *arena slot
count* (live plus tombstoned slots), and exactly the live learned clauses
with length > 2, activity strictly below this threshold, and not locked are
detached. -/
theorem c4_prune_threshold (s : Solver) (hlive : s.liveLearnedIndices ≠ []) :
    s.pruneThreshold s.sortedLearnedIndices =
      stdMin s.medianLiveActivity
        (qDiv s.clause_activity_increment (s.learned_clauses.size : ℚ)) ∧
    s.pruneDetachedRefs =
      s.belowThresholdRefs (s.pruneThreshold s.sortedLearnedIndices) := by
  refine ⟨rfl, ?_⟩
  unfold Solver.pruneDetachedRefs Solver.pruneLearnedClausesT Solver.belowThresholdRefs
  rw [pruneLoop_detached_spec (s.learned_clauses.size + 1) s _ 0 (by omega)]
  rw [Nat.sub_zero, List.range_eq_range']

/-! ## Degenerate unit-only formulas solve to UNKNOWN (C10) -/

theorem setWatchAt_stats (s : Solver) (p : Lit) (j : Nat) (w : Watch) :
    (s.setWatchAt p j w).stats = s.stats := rfl

theorem watchResize_stats (s : Solver) (p : Lit) (j : Nat) :
    (s.watchResize p j).stats = s.stats := rfl

theorem pushWatch_stats (s : Solver) (idx : Nat) (w : Watch) :
    (s.pushWatch idx w).stats = s.stats := rfl

theorem assignLiteral_stats (s : Solver) (l : Lit) (r : ClauseRef) :
    (s.assignLiteral l r).stats = s.stats := rfl

theorem setClauseAt_stats (s : Solver) (r : ClauseRef) (c : List Lit) :
    (s.setClauseAt r c).stats = s.stats := by
  unfold Solver.setClauseAt
  split <;> rfl

/-- The watch walk never touches the statistics record. -/
theorem propWatchLoop_stats :
    ∀ (fuel : Nat) (s : Solver) (p : Lit) (c : ClauseRef) (i j : Nat),
      (propWatchLoop fuel s p c i j).1.stats = s.stats := by
  intro fuel
  induction fuel with
  | zero => intro s p c i j; rfl
  | succ fuel ih =>
    intro s p c i j
    rw [propWatchLoop]
    dsimp only
    repeat' split
    all_goals try rw [ih]
    all_goals simp only [setWatchAt_stats, setClauseAt_stats, pushWatch_stats,
      assignLiteral_stats, watchResize_stats]

/-- Propagation changes, among the statistics, only the propagation
counter. -/
theorem propagateLoop_stats :
    ∀ (fuel : Nat) (s : Solver) (c : ClauseRef),
      (propagateLoop fuel s c).1.stats.num_clauses = s.stats.num_clauses ∧
      (propagateLoop fuel s c).1.stats.num_variables = s.stats.num_variables := by
  intro fuel
  induction fuel with
  | zero => intro s c; exact ⟨rfl, rfl⟩
  | succ fuel ih =>
    intro s c
    rw [propagateLoop]
    dsimp only
    split
    · obtain ⟨ih1, ih2⟩ := ih _ _
      rw [ih1, ih2, propWatchLoop_stats]
      exact ⟨rfl, rfl⟩
    · exact ⟨rfl, rfl⟩

/-- `add_clause` on a clause that simplifies to a single surviving literal
attaches nothing: the clause statistics are unchanged. -/
theorem addClause_singleton_stats (s : Solver) (lits : List Lit)
    (h : SingletonStep s lits) :
    (s.addClause lits).1.stats.num_clauses = s.stats.num_clauses ∧
    (s.addClause lits).1.stats.num_variables = s.stats.num_variables := by
  obtain ⟨l, hl⟩ := h
  unfold Solver.addClause
  rw [hl]
  dsimp only
  rw [if_neg (by simp), if_pos (by simp)]
  dsimp only [Solver.propagate]
  obtain ⟨h1, h2⟩ := propagateLoop_stats
    ((s.assignLiteral l ClauseRef.invalid).stats.num_variables +
      (s.assignLiteral l ClauseRef.invalid).trail.length + 1)
    (s.assignLiteral l ClauseRef.invalid) ClauseRef.invalid
  exact ⟨h1, h2⟩

/-- Loading a sequence of unit-reducing clauses leaves the clause statistics
untouched. -/
theorem loadClauses_singleton_stats :
    ∀ (cs : List (List Lit)) (s : Solver), AllSingletonSteps s cs →
      (loadClauses s cs).stats.num_clauses = s.stats.num_clauses ∧
      (loadClauses s cs).stats.num_variables = s.stats.num_variables := by
  intro cs
  induction cs with
  | nil => exact fun s _ => ⟨rfl, rfl⟩
  | cons c rest ih =>
    intro s h
    obtain ⟨h1, h2, h3⟩ := h
    unfold loadClauses
    rw [if_pos h2]
    have ha := addClause_singleton_stats s c h1
    obtain ⟨ihc, ihv⟩ := ih (s.addClause c).1 h3
    exact ⟨ihc.trans ha.1, ihv.trans ha.2⟩

/-- C10: if after `create_variables(n)` with `n > 0` every `add_clause` call
reduces its clause to a single surviving literal (each call returning true
and attaching nothing), the attached-clause statistic remains zero, and
`solve()` returns UNKNOWN — regardless of the search fuels, and even though
the formula is satisfiable with every variable already assigned at level 0. -/
theorem c10_units_unknown (rand : Nat → Nat) (n : Nat) (cs : List (List Lit))
    (hn : 0 < n)
    (h : AllSingletonSteps ((initSolver rand).createVariables n) cs) :
    (loadClauses ((initSolver rand).createVariables n) cs).stats.num_clauses = 0 ∧
    ∀ fuel search_fuel : Nat,
      ((loadClauses ((initSolver rand).createVariables n) cs).solve fuel search_fuel).1 =
        SolverExitCode.unknown := by
  have hl := loadClauses_singleton_stats cs _ h
  have hz : (loadClauses ((initSolver rand).createVariables n) cs).stats.num_clauses = 0 := by
    rw [hl.1]
    rfl
  refine ⟨hz, ?_⟩
  intro fuel search_fuel
  unfold Solver.solve
  rw [if_pos (by simp [Solver.numClauses, hz])]

/-- Witness for C10: the single unit clause `x1` over one variable loads
with no attached clause and solves to UNKNOWN (not SAT). -/
theorem c10_units_unknown_witness :
    (loadClauses ((initSolver (fun _ => 0)).createVariables 1)
        [[Lit.mk2 0 true]]).stats.num_clauses = 0 ∧
    ((loadClauses ((initSolver (fun _ => 0)).createVariables 1)
        [[Lit.mk2 0 true]]).solve 10 1000).1 = SolverExitCode.unknown :=
  ⟨(c10_units_unknown (fun _ => 0) 1 [[Lit.mk2 0 true]] (by decide) (by decide)).1,
   (c10_units_unknown (fun _ => 0) 1 [[Lit.mk2 0 true]] (by decide) (by decide)).2 10 1000⟩

/-! ## The `add_clause` scan characterization (C3) -/

/-- Flipping the lowest bit of an even number adds one. -/
theorem lit_xor_even (k : Nat) : (2 * k) ^^^ 1 = 2 * k + 1 := by
  have h := Nat.xor_bit false k true 0
  simpa [Nat.bit_false, Nat.bit_true] using h

/-- Flipping the lowest bit of an odd number subtracts one. -/
theorem lit_xor_odd (k : Nat) : (2 * k + 1) ^^^ 1 = 2 * k := by
  have h := Nat.xor_bit true k true 0
  simpa [Nat.bit_false, Nat.bit_true] using h

/-- The representation of a negated literal, by parity. -/
theorem lit_neg_x (l : Lit) : l.neg.x = if l.x % 2 = 0 then l.x + 1 else l.x - 1 := by
  show l.x ^^^ 1 = _
  rcases Nat.mod_two_eq_zero_or_one l.x with h | h
  · obtain ⟨k, hk⟩ : ∃ k, l.x = 2 * k := ⟨l.x / 2, by omega⟩
    rw [if_pos h, hk, lit_xor_even]
  · obtain ⟨k, hk⟩ : ∃ k, l.x = 2 * k + 1 := ⟨l.x / 2, by omega⟩
    rw [if_neg (by omega), hk, lit_xor_odd]
    omega

/-- Negation keeps the variable. -/
theorem lit_neg_var (l : Lit) : l.neg.var = l.var := by
  show l.neg.x / 2 = l.x / 2
  rw [lit_neg_x]
  split <;> omega

/-- Negation flips the polarity. -/
theorem lit_neg_polarity (l : Lit) : l.neg.polarity = !l.polarity := by
  show (l.neg.x % 2 == 1) = !(l.x % 2 == 1)
  rw [lit_neg_x]
  rcases Nat.mod_two_eq_zero_or_one l.x with h | h
  · rw [if_pos h, h]
    have h2 : (l.x + 1) % 2 = 1 := by omega
    rw [h2]
    rfl
  · rw [if_neg (by omega), h]
    have h2 : (l.x - 1) % 2 = 0 := by omega
    rw [h2]
    rfl

/-- Literals with equal representations are equal. -/
theorem lit_eq_of_x_eq {a b : Lit} (h : a.x = b.x) : a = b := by
  cases a
  cases b
  exact congrArg Lit.mk h

/-- No literal equals its own negation. -/
theorem lit_neg_ne (l : Lit) : l.neg ≠ l := by
  intro h
  have hx : l.neg.x = l.x := congrArg Lit.x h
  rw [lit_neg_x] at hx
  split at hx <;> omega

/-- Negation is an involution. -/
theorem lit_neg_neg (l : Lit) : l.neg.neg = l := by
  apply lit_eq_of_x_eq
  show (l.x ^^^ 1) ^^^ 1 = l.x
  exact Nat.xor_cancel_right 1 l.x

/-- If a literal is false, its negation is true. -/
theorem literalTrue_neg_of_false (s : Solver) (l : Lit)
    (h : s.literalFalse l = true) : s.literalTrue l.neg = true := by
  unfold Solver.literalTrue
  rw [lit_neg_var, lit_neg_polarity]
  exact h

/-- The sorting helper agrees with Mathlib's ordered insert. -/
theorem insertSortedBy_eq (a : Lit) :
    ∀ l : List Lit, insertSortedBy (fun a b => decide (a.x ≤ b.x)) a l =
      List.orderedInsert (fun a b : Lit => a.x ≤ b.x) a l := by
  intro l
  induction l with
  | nil => rfl
  | cons b v ih =>
    unfold insertSortedBy List.orderedInsert
    by_cases h : a.x ≤ b.x <;> simp [h, ih]

/-- `sortLits` agrees with Mathlib's insertion sort. -/
theorem insertionSortBy_eq (l : List Lit) :
    insertionSortBy (fun a b => decide (a.x ≤ b.x)) l =
      List.insertionSort (fun a b : Lit => a.x ≤ b.x) l := by
  induction l with
  | nil => rfl
  | cons a t ih =>
    show insertSortedBy _ a (insertionSortBy _ t) = List.orderedInsert _ a (List.insertionSort _ t)
    rw [ih, insertSortedBy_eq]

/-- Sorting permutes the literal list. -/
theorem sortLits_perm (l : List Lit) : (sortLits l).Perm l := by
  unfold sortLits
  rw [insertionSortBy_eq]
  exact List.perm_insertionSort _ l

/-- Sorting preserves membership. -/
theorem sortLits_mem (l : List Lit) (m : Lit) : m ∈ sortLits l ↔ m ∈ l :=
  (sortLits_perm l).mem_iff

/-- The sorted literal list is sorted by representation. -/
theorem sortLits_pairwise (l : List Lit) :
    List.Pairwise (fun a b : Lit => a.x ≤ b.x) (sortLits l) := by
  unfold sortLits
  rw [insertionSortBy_eq]
  exact @List.sorted_insertionSort Lit (fun a b => a.x ≤ b.x)
    (fun a b => Nat.decLe a.x b.x) ⟨fun a b => Nat.le_total a.x b.x⟩
    ⟨fun a b c hab hbc => Nat.le_trans hab hbc⟩ l

/-- Adjacent deduplication in terms of the relative form. -/
theorem dedupAdj_cons (a : Lit) : ∀ r, dedupAdj (a :: r) = a :: dedupFrom a r := by
  intro r
  induction r generalizing a with
  | nil => rfl
  | cons b rest ih =>
    show (if a == b then dedupAdj (b :: rest) else a :: dedupAdj (b :: rest)) =
      a :: (if b == a then dedupFrom a rest else b :: dedupFrom b rest)
    by_cases h : a = b
    · subst h
      rw [if_pos (by simp), if_pos (by simp)]
      exact ih a
    · rw [if_neg (by simpa using h), if_neg (by simpa using fun e => h e.symm), ih b]

/-- Relative deduplication from a literal absent from the list is plain
adjacent deduplication. -/
theorem dedupFrom_eq_dedupAdj (l : List Lit) (last : Lit) (h : last ∉ l) :
    dedupFrom last l = dedupAdj l := by
  cases l with
  | nil => rfl
  | cons a r =>
    show (if a == last then dedupFrom last r else a :: dedupFrom a r) = _
    rw [if_neg (by simpa using fun e : a = last => h (e ▸ List.mem_cons_self a r)), dedupAdj_cons]

/-- Characterization of the `add_clause` scan on a sorted literal tail: it
returns `none` exactly when the early-return condition `ScanTrig` holds, and
otherwise it keeps the not-false literals deduplicated against the last
kept literal. -/
theorem addClauseScan_char (s : Solver) :
    ∀ (rest : List Lit) (last : Lit),
      List.Pairwise (fun a b : Lit => a.x ≤ b.x) rest →
      ((∀ m ∈ rest, last.x ≤ m.x) ∨
        (last = Lit.invalid ∧ ∀ m ∈ rest, m.x + 2 < 2 ^ 32)) →
      ((addClauseScan s last rest = none ↔ ScanTrig s last rest) ∧
        (addClauseScan s last rest = none ∨
          addClauseScan s last rest =
            some (dedupFrom last (rest.filter (fun l => !(s.literalFalse l)))))) := by
  intro rest
  induction rest with
  | nil =>
    intro last hp hinv
    refine ⟨⟨fun h => ?_, fun h => ?_⟩, Or.inr rfl⟩
    · rw [addClauseScan] at h
      cases h
    · rcases h with ⟨m, hm, _⟩ | ⟨m, hm, _⟩ | hm <;> cases hm
  | cons c r ih =>
    intro last hp hinv
    have hp2 : List.Pairwise (fun a b : Lit => a.x ≤ b.x) r := (List.pairwise_cons.mp hp).2
    have hcr : ∀ m ∈ r, c.x ≤ m.x := (List.pairwise_cons.mp hp).1
    have hinv2 : (∀ m ∈ r, last.x ≤ m.x) ∨
        (last = Lit.invalid ∧ ∀ m ∈ r, m.x + 2 < 2 ^ 32) := by
      rcases hinv with h | ⟨hl, hb⟩
      · exact Or.inl fun m hm => h m (List.mem_cons_of_mem c hm)
      · exact Or.inr ⟨hl, fun m hm => hb m (List.mem_cons_of_mem c hm)⟩
    by_cases h1 : s.literalTrue c = true
    · have h1a : (s.valueOf c.var).eqBool c.polarity = true := h1
      have hs : addClauseScan s last (c :: r) = none := by
        rw [addClauseScan, if_pos h1a]
      refine ⟨?_, Or.inl hs⟩
      rw [hs]
      exact ⟨fun _ => Or.inl ⟨c, List.mem_cons_self c r, h1⟩, fun _ => rfl⟩
    · have h1a : ¬ (s.valueOf c.var).eqBool c.polarity = true := h1
      have hTc : s.literalTrue c = false := by simpa using h1
      by_cases h2 : (c == last.neg) = true
      · have hs : addClauseScan s last (c :: r) = none := by
          rw [addClauseScan, if_neg h1a, if_pos h2]
        have hceq : c = last.neg := by simpa using h2
        refine ⟨?_, Or.inl hs⟩
        rw [hs]
        refine ⟨fun _ => Or.inr (Or.inr ?_), fun _ => rfl⟩
        rw [← hceq]
        exact List.mem_cons_self c r
      · by_cases h3 : s.literalFalse c = true
        · have h3a : (s.valueOf c.var).eqBool (!c.polarity) = true := h3
          have hs : addClauseScan s last (c :: r) = addClauseScan s last r := by
            rw [addClauseScan, if_neg h1a, if_neg h2, if_pos h3a]
          obtain ⟨ihiff, ihval⟩ := ih last hp2 hinv2
          have hfil : (c :: r).filter (fun l => !(s.literalFalse l)) =
              r.filter (fun l => !(s.literalFalse l)) := by
            rw [List.filter_cons_of_neg]
            simp [h3]
          have htrig : ScanTrig s last (c :: r) ↔ ScanTrig s last r := by
            unfold ScanTrig
            constructor
            · rintro (⟨m, hm, hT⟩ | ⟨m, hm, hneg, hT, hF⟩ | hmem)
              · rcases List.mem_cons.mp hm with rfl | hm2
                · exact absurd hT h1
                · exact Or.inl ⟨m, hm2, hT⟩
              · rcases List.mem_cons.mp hm with rfl | hm2
                · rw [h3] at hF
                  cases hF
                · rcases List.mem_cons.mp hneg with he | hneg2
                  · exfalso
                    have hcm : c.neg = m := by rw [← he, lit_neg_neg]
                    have hct : s.literalTrue c.neg = true := literalTrue_neg_of_false s c h3
                    rw [hcm, hT] at hct
                    cases hct
                  · exact Or.inr (Or.inl ⟨m, hm2, hneg2, hT, hF⟩)
              · rcases List.mem_cons.mp hmem with he | hm2
                · exact absurd (by rw [he] : (c == last.neg) = (c == c)) (by simp [h2])
                · exact Or.inr (Or.inr hm2)
            · rintro (⟨m, hm, hT⟩ | ⟨m, hm, hneg, hT, hF⟩ | hmem)
              · exact Or.inl ⟨m, List.mem_cons_of_mem c hm, hT⟩
              · exact Or.inr (Or.inl ⟨m, List.mem_cons_of_mem c hm,
                  List.mem_cons_of_mem c hneg, hT, hF⟩)
              · exact Or.inr (Or.inr (List.mem_cons_of_mem c hmem))
          refine ⟨?_, ?_⟩
          · rw [hs, htrig]
            exact ihiff
          · rw [hs, hfil]
            exact ihval
        · have h3a : ¬ (s.valueOf c.var).eqBool (!c.polarity) = true := h3
          have hFc : s.literalFalse c = false := by simpa using h3
          by_cases h4 : (c == last) = true
          · have hceq : c = last := by simpa using h4
            have hs : addClauseScan s last (c :: r) = addClauseScan s last r := by
              rw [addClauseScan, if_neg h1a, if_neg h2, if_neg h3a, if_pos h4]
            obtain ⟨ihiff, ihval⟩ := ih last hp2 hinv2
            have hfil : (c :: r).filter (fun l => !(s.literalFalse l)) =
                c :: r.filter (fun l => !(s.literalFalse l)) := by
              rw [List.filter_cons_of_pos]
              simp [hFc]
            have hded : dedupFrom last (c :: r.filter (fun l => !(s.literalFalse l))) =
                dedupFrom last (r.filter (fun l => !(s.literalFalse l))) := by
              show (if c == last then _ else _) = _
              rw [if_pos h4]
            have htrig : ScanTrig s last (c :: r) ↔ ScanTrig s last r := by
              unfold ScanTrig
              constructor
              · rintro (⟨m, hm, hT⟩ | ⟨m, hm, hneg, hT, hF⟩ | hmem)
                · rcases List.mem_cons.mp hm with rfl | hm2
                  · exact absurd hT h1
                  · exact Or.inl ⟨m, hm2, hT⟩
                · rcases List.mem_cons.mp hm with rfl | hm2
                  · rcases List.mem_cons.mp hneg with he | hneg2
                    · exact absurd he (lit_neg_ne _)
                    · rw [hceq] at hneg2
                      exact Or.inr (Or.inr hneg2)
                  · rcases List.mem_cons.mp hneg with he | hneg2
                    · have hcm : c.neg = m := by rw [← he, lit_neg_neg]
                      rw [hceq] at hcm
                      rw [← hcm] at hm2
                      exact Or.inr (Or.inr hm2)
                    · exact Or.inr (Or.inl ⟨m, hm2, hneg2, hT, hF⟩)
                · rcases List.mem_cons.mp hmem with he | hm2
                  · rw [hceq] at he
                    exact absurd he (lit_neg_ne last)
                  · exact Or.inr (Or.inr hm2)
              · rintro (⟨m, hm, hT⟩ | ⟨m, hm, hneg, hT, hF⟩ | hmem)
                · exact Or.inl ⟨m, List.mem_cons_of_mem c hm, hT⟩
                · exact Or.inr (Or.inl ⟨m, List.mem_cons_of_mem c hm,
                    List.mem_cons_of_mem c hneg, hT, hF⟩)
                · exact Or.inr (Or.inr (List.mem_cons_of_mem c hmem))
            refine ⟨?_, ?_⟩
            · rw [hs, htrig]
              exact ihiff
            · rw [hs, hfil, hded]
              exact ihval
          · have hs : addClauseScan s last (c :: r) =
                (addClauseScan s c r).map (fun l => c :: l) := by
              rw [addClauseScan, if_neg h1a, if_neg h2, if_neg h3a, if_neg h4]
            have hcne : c ≠ last := by
              intro he
              exact h4 (by rw [he]; simp)
            have hcnn : c ≠ last.neg := by
              intro he
              exact h2 (by rw [he]; simp)
            have hnr : last.neg ∉ r := by
              intro hmem
              rcases hinv with hlo | ⟨hl, hb⟩
              · have hlc : last.x ≤ c.x := hlo c (List.mem_cons_self c r)
                have hln : c.x ≤ last.neg.x := hcr _ hmem
                have hx1 : c.x ≠ last.x := fun he => hcne (lit_eq_of_x_eq he)
                have hx2 : c.x ≠ last.neg.x := fun he => hcnn (lit_eq_of_x_eq he)
                have hnx := lit_neg_x last
                split at hnx <;> omega
              · have hbb := hb last.neg (List.mem_cons_of_mem c hmem)
                have hnx := lit_neg_x last
                rw [hl] at hnx
                have hix : Lit.invalid.x = 2 ^ 32 - 1 := rfl
                have h32 : (2 : Nat) ^ 32 = 4294967296 := by norm_num
                rw [hl] at hbb
                split at hnx <;> omega
            obtain ⟨ihiff, ihval⟩ := ih c hp2 (Or.inl hcr)
            have htrig : ScanTrig s last (c :: r) ↔ ScanTrig s c r := by
              unfold ScanTrig
              constructor
              · rintro (⟨m, hm, hT⟩ | ⟨m, hm, hneg, hT, hF⟩ | hmem)
                · rcases List.mem_cons.mp hm with rfl | hm2
                  · exact absurd hT h1
                  · exact Or.inl ⟨m, hm2, hT⟩
                · rcases List.mem_cons.mp hm with rfl | hm2
                  · rcases List.mem_cons.mp hneg with he | hneg2
                    · exact absurd he (lit_neg_ne _)
                    · exact Or.inr (Or.inr hneg2)
                  · rcases List.mem_cons.mp hneg with he | hneg2
                    · have hcm : c.neg = m := by rw [← he, lit_neg_neg]
                      rw [← hcm] at hm2
                      exact Or.inr (Or.inr hm2)
                    · exact Or.inr (Or.inl ⟨m, hm2, hneg2, hT, hF⟩)
                · rcases List.mem_cons.mp hmem with he | hm2
                  · exact absurd he.symm hcnn
                  · exact absurd hm2 hnr
              · rintro (⟨m, hm, hT⟩ | ⟨m, hm, hneg, hT, hF⟩ | hmem)
                · exact Or.inl ⟨m, List.mem_cons_of_mem c hm, hT⟩
                · exact Or.inr (Or.inl ⟨m, List.mem_cons_of_mem c hm,
                    List.mem_cons_of_mem c hneg, hT, hF⟩)
                · exact Or.inr (Or.inl ⟨c, List.mem_cons_self c r,
                    List.mem_cons_of_mem c hmem, hTc, hFc⟩)
            refine ⟨?_, ?_⟩
            · rw [hs]
              cases hsc : addClauseScan s c r with
              | none =>
                simp only [Option.map_none']
                exact ⟨fun _ => htrig.mpr (ihiff.mp hsc), fun _ => trivial⟩
              | some k =>
                simp only [Option.map_some']
                constructor
                · intro hcon
                  cases hcon
                · intro htr2
                  have hcc := ihiff.mpr (htrig.mp htr2)
                  rw [hsc] at hcc
                  cases hcc
            · rw [hs]
              rcases ihval with hnone | hsome
              · rw [hnone]
                exact Or.inl rfl
              · rw [hsome]
                right
                have hfil : (c :: r).filter (fun l => !(s.literalFalse l)) =
                    c :: r.filter (fun l => !(s.literalFalse l)) := by
                  rw [List.filter_cons_of_pos]
                  simp [hFc]
                rw [hfil]
                have hded : dedupFrom last (c :: r.filter (fun l => !(s.literalFalse l))) =
                    c :: dedupFrom c (r.filter (fun l => !(s.literalFalse l))) := by
                  show (if c == last then _ else _) = _
                  rw [if_neg h4]
                rw [hded]
                rfl

/-- At the top of the scan (`last_literal` invalid), the early-return
condition over the sorted literals is exactly triviality of the clause:
a level-0-true literal or a tautological pair.  The bound excludes literal
representations colliding with the invalid literal or its negation
(impossible for `uint32`-packed parsed literals). -/
theorem scanTrig_iff_trivSat (s : Solver) (lits : List Lit)
    (hv : ∀ l ∈ lits, l.x + 2 < 2 ^ 32) :
    ScanTrig s Lit.invalid (sortLits lits) ↔ trivSat s lits := by
  unfold ScanTrig trivSat
  constructor
  · rintro (⟨m, hm, hT⟩ | ⟨m, hm, hneg, hT, hF⟩ | hmem)
    · exact Or.inl ⟨m, (sortLits_mem lits m).mp hm, hT⟩
    · exact Or.inr ⟨m, (sortLits_mem lits m).mp hm, (sortLits_mem lits m.neg).mp hneg⟩
    · exfalso
      have hb := hv _ ((sortLits_mem lits Lit.invalid.neg).mp hmem)
      have hnx := lit_neg_x Lit.invalid
      have hix : Lit.invalid.x = 2 ^ 32 - 1 := rfl
      have h32 : (2 : Nat) ^ 32 = 4294967296 := by norm_num
      split at hnx <;> omega
  · rintro (⟨m, hm, hT⟩ | ⟨m, hm, hmem⟩)
    · exact Or.inl ⟨m, (sortLits_mem lits m).mpr hm, hT⟩
    · by_cases h1 : s.literalTrue m = true
      · exact Or.inl ⟨m, (sortLits_mem lits m).mpr hm, h1⟩
      by_cases h3 : s.literalFalse m = true
      · exact Or.inl ⟨m.neg, (sortLits_mem lits m.neg).mpr hmem,
          literalTrue_neg_of_false s m h3⟩
      · exact Or.inr (Or.inl ⟨m, (sortLits_mem lits m).mpr hm,
          (sortLits_mem lits m.neg).mpr hmem, by simpa using h1, by simpa using h3⟩)

/-- C3: at decision level 0, `add_clause` on a non-empty literal list
returns false exactly when the clause is not discarded as trivially
satisfied (no literal already true at level 0, no tautological pair — on
those it returns true, per the claim's final sentence) and the survivors of
sorting and dropping level-0-false literals and duplicates are either none
at all, or exactly one literal whose assignment with an invalid reason
followed by propagation yields a conflict.  The representation bound on the
literals reflects their `uint32` packing `2*var + polarity` (the parser
produces only such literals). -/
theorem c3_add_clause_false_iff (s : Solver) (lits : List Lit)
    (hne : lits ≠ []) (hdl : s.decisionLevel = 0)
    (hv : ∀ l ∈ lits, l.x + 2 < 2 ^ 32) :
    (s.addClause lits).2 = false ↔
      ¬ trivSat s lits ∧
        (specSurvivors s lits = [] ∨
          ∃ l, specSurvivors s lits = [l] ∧ unitConflicts s l = true) := by
  obtain ⟨hiff, hval⟩ := addClauseScan_char s (sortLits lits) Lit.invalid
    (sortLits_pairwise lits)
    (Or.inr ⟨rfl, fun m hm => hv m ((sortLits_mem lits m).mp hm)⟩)
  have htr := scanTrig_iff_trivSat s lits hv
  unfold Solver.addClause
  cases hscan : addClauseScan s Lit.invalid (sortLits lits) with
  | none =>
    have htriv : trivSat s lits := htr.mp (hiff.mp hscan)
    dsimp only
    constructor
    · intro h
      cases h
    · rintro ⟨hnt, _⟩
      exact absurd htriv hnt
  | some kept =>
    have hnt : ¬ trivSat s lits := by
      intro ht
      have hcc := hiff.mpr (htr.mpr ht)
      rw [hscan] at hcc
      cases hcc
    have hkeq : kept = specSurvivors s lits := by
      rcases hval with h | h
      · rw [hscan] at h
        cases h
      · rw [hscan] at h
        injection h with h2
        unfold specSurvivors
        rw [h2]
        apply dedupFrom_eq_dedupAdj
        intro hmem
        have hb := hv Lit.invalid
          ((sortLits_mem lits Lit.invalid).mp (List.mem_filter.mp hmem).1)
        have hix : Lit.invalid.x = 2 ^ 32 - 1 := rfl
        have h32 : (2 : Nat) ^ 32 = 4294967296 := by norm_num
        omega
    dsimp only
    cases kept with
    | nil =>
      rw [if_pos (by rfl)]
      refine ⟨fun _ => ⟨hnt, Or.inl hkeq.symm⟩, fun _ => rfl⟩
    | cons a t =>
      rw [if_neg (by simp)]
      cases t with
      | nil =>
        rw [if_pos (by rfl)]
        constructor
        · intro h
          refine ⟨hnt, Or.inr ⟨a, hkeq ▸ rfl, ?_⟩⟩
          unfold unitConflicts
          simpa using h
        · rintro ⟨_, hc | ⟨l, hl, hc⟩⟩
          · rw [← hkeq] at hc
            cases hc
          · rw [← hkeq] at hl
            injection hl with hla
            subst hla
            unfold unitConflicts at hc
            simpa using hc
      | cons b t2 =>
        rw [if_neg (by simp)]
        constructor
        · intro h
          cases h
        · rintro ⟨_, hc | ⟨l, hl, _⟩⟩
          · rw [← hkeq] at hc
            cases hc
          · rw [← hkeq] at hl
            cases hl

/-- Witness for C3: over one fresh variable, the clause `x1 ∨ x1` (a
duplicate literal) reduces to the single survivor `x1`, whose assignment
propagates without conflict, so both sides of the equivalence are false. -/
theorem c3_add_clause_false_iff_witness :
    ((((initSolver (fun _ => 0)).createVariables 1).addClause
          [Lit.mk2 0 true, Lit.mk2 0 true]).2 = false ↔
      ¬ trivSat ((initSolver (fun _ => 0)).createVariables 1)
          [Lit.mk2 0 true, Lit.mk2 0 true] ∧
        (specSurvivors ((initSolver (fun _ => 0)).createVariables 1)
            [Lit.mk2 0 true, Lit.mk2 0 true] = [] ∨
          ∃ l, specSurvivors ((initSolver (fun _ => 0)).createVariables 1)
              [Lit.mk2 0 true, Lit.mk2 0 true] = [l] ∧
            unitConflicts ((initSolver (fun _ => 0)).createVariables 1) l = true)) :=
  c3_add_clause_false_iff ((initSolver (fun _ => 0)).createVariables 1)
    [Lit.mk2 0 true, Lit.mk2 0 true] (by decide) (by decide) (by decide)

/-- C1: on the input `p cnf 1 2\n1 0\n-1 0\n` the program prints UNKNOWN and
exits with code 0 — not UNSAT with exit code 20 as claimed — and this holds
for every restart fuel and search fuel: both unit clauses are consumed by
`add_clause` without ever raising `num_clauses` (the second one returns
false, making the parser return early), so `solve()` takes its
zero-clause short circuit before the search loop even starts.  The
generator stream is fixed to the zero stream; no draw is consumed on this
trace, since no decision is ever taken. -/
theorem c1_trivial_unsat_eval (fuel search_fuel : Nat) :
    runProgram (fun _ => 0) dimacsInput1 fuel search_fuel = some ⟨0, "UNKNOWN"⟩ ∧
    runProgram (fun _ => 0) dimacsInput1 fuel search_fuel ≠ some ⟨20, "UNSAT"⟩ := by
  refine ⟨rfl, ?_⟩
  intro h
  have h2 : (some (⟨0, "UNKNOWN"⟩ : ProgramRun) : Option ProgramRun) =
      some (⟨20, "UNSAT"⟩ : ProgramRun) := h
  simp at h2

/-- C2: model soundness fails on `p cnf 2 3\n1 2 0\n1 0\n-1 0\n`.  The run
returns SAT (exit code 10, output line `SAT 1 -2`) with model x1 = true,
x2 = false, yet the third original clause of the formula (`-1 0`, i.e. ¬x1,
as recorded by the mock parse of the same input) has no literal that is
satisfied or still free under this model.  The clause emptied during
loading: `add_clause` dropped its only literal as level-0 false and
returned false, and the parser's early return discarded the
trivially-UNSAT verdict, which `main` never checks. -/
theorem c2_model_soundness_eval :
    runProgram (fun _ => 0) dimacsInput2 10 1000 = some ⟨10, "SAT 1 -2"⟩ ∧
    (runSolverState (fun _ => 0) dimacsInput2 10 1000).map Solver.model =
      some [VVal.vtrue, VVal.vfalse] ∧
    mockClauses dimacsInput2 =
      [[Lit.mk2 0 true, Lit.mk2 1 true], [Lit.mk2 0 true], [Lit.mk2 0 false]] ∧
    clauseSatOrFree [VVal.vtrue, VVal.vfalse] [Lit.mk2 0 false] = false :=
  ⟨rfl, rfl, rfl, rfl⟩

/-- Witness for the amended C4 on `exampleStateB`. -/
theorem c4_prune_threshold_witness :
    exampleStateB.pruneThreshold exampleStateB.sortedLearnedIndices =
      stdMin exampleStateB.medianLiveActivity
        (qDiv exampleStateB.clause_activity_increment (exampleStateB.learned_clauses.size : ℚ)) ∧
    exampleStateB.pruneDetachedRefs =
      exampleStateB.belowThresholdRefs
        (exampleStateB.pruneThreshold exampleStateB.sortedLearnedIndices) :=
  c4_prune_threshold exampleStateB (by decide)

end NanoSat
